import Mathlib

/-!
# Reactor: a shallow embedding of `reactor.hpp` / `reactor.cpp`

The reactor owns three registration tables (`std::map<int, func_type>`, one per
`Usage`) and the flag `m_isRunning`.  A `std::map` is embedded as the list of its
entries in iteration order; `map_insert`, `map_find` and `map_erase` are the
library operations the source calls, written with the comparator `<` only.
A function that may throw returns the state it leaves behind together with the
exception it threw, if any, so that the state after a failed call can be
compared with the state before it.
-/

namespace ilrd

/-! ## Data model (`reactor.hpp`) -/

/-- Readiness category; the declaration order is the numeric order of the enum:
`EXCEPT = 0`, `READ = 1`, `WRITE = 2`. -/
inductive Usage where
  | EXCEPT
  | READ
  | WRITE
  deriving DecidableEq, Repr

/-- Number of categories, the enumerator `USAGE_COUNT`. -/
def USAGE_COUNT : Nat := 3

/-- Return values of `Run()`. -/
inductive Status where
  | STOP_CALLED
  | EMPTY
  | ERROR
  deriving DecidableEq, Repr

/-- The constant `static const int limit = 1024`. -/
def limit : Int := 1024

/-- Exceptions the source throws: the four reactor classes of `reactor.hpp` and the
two standard exceptions thrown by `SelectFuncIMP`. -/
inductive Exn where
  | ExceptionRepeatingFD
  | ExceptionNonValidFD
  | ExceptionRemovingNonExistingFD
  | ExceptionFDsOverflow
  | std_runtime_error
  | std_logic_error
  deriving DecidableEq, Repr

/-- Entries of a `std::map<int, func_type>` in iteration order. -/
abbrev map_type (Cb : Type) := List (Int × Cb)

/-- Keys of a table, in iteration order. -/
def map_keys {Cb : Type} (m : map_type Cb) : List Int := m.map Prod.fst

/-- Representation invariant of `std::map`: keys strictly ascending. -/
def map_ordered {Cb : Type} (m : map_type Cb) : Prop :=
  List.Pairwise (fun a b => a < b) (map_keys m)

instance {Cb : Type} (m : map_type Cb) : Decidable (map_ordered m) := by
  unfold map_ordered; infer_instance

/-- The call `m.size()`. -/
def map_size {Cb : Type} (m : map_type Cb) : Nat := m.length

/-- The call `m.insert(std::make_pair(k, v))`: the resulting map and the `second`
component of the returned pair (`true` when the element was inserted, `false`
when an element with an equivalent key blocked the insertion). -/
def map_insert {Cb : Type} (k : Int) (v : Cb) : map_type Cb → map_type Cb × Bool
  | [] => ([(k, v)], true)
  | e :: rest =>
    if k < e.1 then ((k, v) :: e :: rest, true)
    else if e.1 < k then
      let res := map_insert k v rest
      (e :: res.1, res.2)
    else (e :: rest, false)

/-- The call `m.find(k)`: the element found, or `none` for `m.end()`. -/
def map_find {Cb : Type} (k : Int) : map_type Cb → Option (Int × Cb)
  | [] => none
  | e :: rest => if e.1 < k ∨ k < e.1 then map_find k rest else some e

/-- The call `m.erase(k)`: removes the element whose key is equivalent to `k`. -/
def map_erase {Cb : Type} (k : Int) : map_type Cb → map_type Cb
  | [] => []
  | e :: rest => if e.1 < k ∨ k < e.1 then e :: map_erase k rest else rest

/-- State of a `Reactor`: the flag and `reactions_tables[3]`, indexed by `Usage`
(`table_EXCEPT` is `reactions_tables[0]`, and so on).  The member
`m_reactHappened` is never read or written by the source and is left out. -/
structure Reactor (Cb : Type) where
  m_isRunning : Bool
  table_EXCEPT : map_type Cb
  table_READ : map_type Cb
  table_WRITE : map_type Cb
  deriving DecidableEq, Repr

/-- The expression `reactions_tables[usage]` read. -/
def Reactor.table {Cb : Type} (r : Reactor Cb) : Usage → map_type Cb
  | Usage.EXCEPT => r.table_EXCEPT
  | Usage.READ => r.table_READ
  | Usage.WRITE => r.table_WRITE

/-- The expression `reactions_tables[usage]` assigned. -/
def Reactor.setTable {Cb : Type} (r : Reactor Cb) (u : Usage) (m : map_type Cb) :
    Reactor Cb :=
  match u with
  | Usage.EXCEPT => { r with table_EXCEPT := m }
  | Usage.READ => { r with table_READ := m }
  | Usage.WRITE => { r with table_WRITE := m }

/-- Every table of the reactor satisfies the `std::map` invariant. -/
def Reactor.ordered {Cb : Type} (r : Reactor Cb) : Prop :=
  ∀ u : Usage, map_ordered (r.table u)

/-- The constructor `Reactor::Reactor()`: flag cleared, three empty maps. -/
def Reactor.new (Cb : Type) : Reactor Cb :=
  { m_isRunning := false, table_EXCEPT := [], table_READ := [], table_WRITE := [] }

/-! ## `Reactor::Add` and `Reactor::Remove` (`reactor.cpp`) -/

/-- The method `Reactor::Add`.  The argument `fcntl` is the result of the system call
`fcntl(fd, F_GETFL)` in the current state of the process (`-1` when `fd` is not an
open descriptor); as in the source it is consulted only for `0 <= fd < limit`. -/
def Add {Cb : Type} (fcntl : Int → Int) (r : Reactor Cb) (fd : Int) (usage : Usage)
    (callback_func : Cb) : Reactor Cb × Option Exn :=
  if (0 > fd) || ((limit ≤ fd) || (-1 == fcntl fd)) then
    (r, some Exn.ExceptionNonValidFD)
  else if (map_size (r.table usage) : Int) == limit then
    (r, some Exn.ExceptionFDsOverflow)
  else
    let res := map_insert fd callback_func (r.table usage)
    if res.2 == false then
      (r.setTable usage res.1, some Exn.ExceptionRepeatingFD)
    else
      (r.setTable usage res.1, none)

/-- The method `Reactor::Remove`. -/
def Remove {Cb : Type} (r : Reactor Cb) (fd : Int) (usage : Usage) :
    Reactor Cb × Option Exn :=
  if (map_find fd (r.table usage)).isNone then
    (r, some Exn.ExceptionRemovingNonExistingFD)
  else
    (r.setTable usage (map_erase fd (r.table usage)), none)

/-! ## The dispatch loop: `Run`, `Stop`, `SelectFuncIMP` and the two functors -/

/-- An `fd_set`, as the list of the descriptors whose bit is set. -/
abbrev fd_set := List Int

/-- The macro `FD_ZERO`. -/
def FD_ZERO : fd_set := []

/-- The macro `FD_SET`. -/
def FD_SET (fd : Int) (s : fd_set) : fd_set := if fd ∈ s then s else fd :: s

/-- The macro `FD_ISSET`. -/
def FD_ISSET (fd : Int) (s : fd_set) : Bool := decide (fd ∈ s)

/-- The local array `fd_set fd_status[USAGE_COUNT]` of `Run`, indexed by `Usage`. -/
structure FdStatus where
  at_EXCEPT : fd_set
  at_READ : fd_set
  at_WRITE : fd_set
  deriving DecidableEq, Repr

/-- The expression `fd_status[i]`. -/
def FdStatus.get (s : FdStatus) : Usage → fd_set
  | Usage.EXCEPT => s.at_EXCEPT
  | Usage.READ => s.at_READ
  | Usage.WRITE => s.at_WRITE

/-- The functor call `FDSetInitIMP(set)(file_des)`: sets the bit of `file_des.first`. -/
def FDSetInitIMP {Cb : Type} (m_set : fd_set) (file_des : Int × Cb) : fd_set :=
  FD_SET file_des.1 m_set

/-- One round of the second `for` loop of `Run`: `FD_ZERO` followed by `for_each`
over the table with `FDSetInitIMP`. -/
def init_fd_set {Cb : Type} (m : map_type Cb) : fd_set :=
  m.foldl FDSetInitIMP FD_ZERO

/-- The three sets built from the three tables, `fd_status[i]` from
`reactions_tables[i]`. -/
def init_fd_status {Cb : Type} (r : Reactor Cb) : FdStatus :=
  { at_EXCEPT := init_fd_set (r.table Usage.EXCEPT),
    at_READ := init_fd_set (r.table Usage.READ),
    at_WRITE := init_fd_set (r.table Usage.WRITE) }

/-- Values of `errno` after a failed `select`. -/
inductive Errno where
  | EINTR
  | EAGAIN
  | EBADF
  | EINVAL
  | ENOMEM
  deriving DecidableEq, Repr

/-- What the operating system answers to one call of `select` with no timeout:
either the descriptors that are ready for reading, for writing and with an
exceptional condition, or a failure with its `errno`. -/
inductive SelectReturn where
  | ready (rd wr ex : fd_set)
  | error (errno : Errno)
  deriving DecidableEq, Repr

/-- The system call `select(nfds, readfds, writefds, exceptfds, NULL)` under a given
answer of the operating system: the return value and the three sets afterwards.
A successful call keeps in each set the descriptors that are ready and returns
their number; a failed call returns `-1` and leaves the sets as they were. -/
def select (ret : SelectReturn) (readfds writefds exceptfds : fd_set) :
    Int × fd_set × fd_set × fd_set :=
  match ret with
  | SelectReturn.ready rd wr ex =>
    let r := readfds.filter (fun fd => decide (fd ∈ rd))
    let w := writefds.filter (fun fd => decide (fd ∈ wr))
    let e := exceptfds.filter (fun fd => decide (fd ∈ ex))
    (((r.length + w.length + e.length : Nat) : Int), r, w, e)
  | SelectReturn.error _ => (-1, readfds, writefds, exceptfds)

/-- How a call of `SelectFuncIMP` ends: it returns, it throws, or the `select` it
waits in never returns (the answers of the operating system are used up). -/
inductive SelectExit where
  | returned
  | threw (e : Exn)
  | blocked
  deriving DecidableEq, Repr

/-- Result of `SelectFuncIMP`: how it ended, the array `sets` afterwards, the
answers of the operating system not yet consumed, and the arguments
(`readfds`, `writefds`, `exceptfds`) of every `select` call it made, in order. -/
structure SelectResult where
  exit : SelectExit
  sets : FdStatus
  rest : List SelectReturn
  calls : List (fd_set × fd_set × fd_set)
  deriving DecidableEq, Repr

/-- The function `SelectFuncIMP(sets, limit)`.  The list holds the answers of the
operating system to the successive `select` calls. -/
def SelectFuncIMP : List SelectReturn → FdStatus → SelectResult
  | [], sets =>
    { exit := SelectExit.blocked, sets := sets, rest := [],
      calls := [(sets.get Usage.READ, sets.get Usage.WRITE, sets.get Usage.EXCEPT)] }
  | ret :: rest, sets =>
    let call := (sets.get Usage.READ, sets.get Usage.WRITE, sets.get Usage.EXCEPT)
    let out := select ret (sets.get Usage.READ) (sets.get Usage.WRITE) (sets.get Usage.EXCEPT)
    let sets1 : FdStatus :=
      { at_READ := out.2.1, at_WRITE := out.2.2.1, at_EXCEPT := out.2.2.2 }
    if -1 == out.1 then
      match ret with
      | SelectReturn.error Errno.EINTR =>
        let res := SelectFuncIMP rest sets1
        { res with calls := call :: res.calls }
      | SelectReturn.error Errno.EAGAIN =>
        { exit := SelectExit.threw Exn.std_runtime_error, sets := sets1, rest := rest,
          calls := [call] }
      | SelectReturn.error Errno.EBADF =>
        { exit := SelectExit.threw Exn.std_logic_error, sets := sets1, rest := rest,
          calls := [call] }
      | _ => { exit := SelectExit.returned, sets := sets1, rest := rest, calls := [call] }
    else
      { exit := SelectExit.returned, sets := sets1, rest := rest, calls := [call] }

/-- The method `Reactor::Stop`: `none` when `assert(m_isRunning)` fails, otherwise the
state with the flag cleared. -/
def Stop {Cb : Type} (r : Reactor Cb) : Option (Reactor Cb) :=
  if r.m_isRunning then some { r with m_isRunning := false } else none

/-- A call of the public interface made by a callback. -/
inductive Call (Cb : Type) where
  | Add (fd : Int) (usage : Usage) (cb : Cb)
  | Remove (fd : Int) (usage : Usage)
  | Stop
  deriving DecidableEq, Repr

/-- What a callback does to the reactor while it runs: it returns, lets an exception
escape, or calls `Add`, `Remove` or `Stop` and goes on according to the exception
the call threw, if any.  The reactor's members are private, so these calls are
the only way a callback acts on it. -/
inductive Prog (Cb : Type) where
  | ret : Prog Cb
  | raise (e : Exn) : Prog Cb
  | Add (fd : Int) (usage : Usage) (cb : Cb) (k : Option Exn → Prog Cb) : Prog Cb
  | Remove (fd : Int) (usage : Usage) (k : Option Exn → Prog Cb) : Prog Cb
  | Stop (k : Prog Cb) : Prog Cb

/-- How the call of a callback ends; `aborted` is a failed `assert` in `Stop`. -/
inductive CbExit where
  | returned
  | threw (e : Exn)
  | aborted
  deriving DecidableEq, Repr

/-- Result of running a callback: how it ended, the reactor afterwards and the
interface calls it made, in order. -/
structure CbResult (Cb : Type) where
  exit : CbExit
  state : Reactor Cb
  log : List (Call Cb)

/-- The call `file_des.second(file_des.first)`: runs the callback on the reactor. -/
def runCallback {Cb : Type} (fcntl : Int → Int) : Prog Cb → Reactor Cb → CbResult Cb
  | Prog.ret, r => { exit := CbExit.returned, state := r, log := [] }
  | Prog.raise e, r => { exit := CbExit.threw e, state := r, log := [] }
  | Prog.Add fd usage cb k, r =>
    let res := Add fcntl r fd usage cb
    let out := runCallback fcntl (k res.2) res.1
    { out with log := Call.Add fd usage cb :: out.log }
  | Prog.Remove fd usage k, r =>
    let res := Remove r fd usage
    let out := runCallback fcntl (k res.2) res.1
    { out with log := Call.Remove fd usage :: out.log }
  | Prog.Stop k, r =>
    match Stop r with
    | none => { exit := CbExit.aborted, state := r, log := [Call.Stop] }
    | some r1 =>
      let out := runCallback fcntl k r1
      { out with log := Call.Stop :: out.log }

/-- The test of `FDTestAndRunIMP::operator()`: `FD_ISSET(file_des.first, &m_set)`. -/
def FDTest {Cb : Type} (m_set : fd_set) (file_des : Int × Cb) : Bool :=
  FD_ISSET file_des.1 m_set

/-- The third `for` loop of `Run` from index `i` on, up to the callback call: the
first table, in the order given, in which `find_if` with `FDTestAndRunIMP`
meets an element whose bit is set in `fd_status[i]`, and that element.
The functor runs the callback on this element and returns `true`, which ends
both `find_if` and the `for` loop. -/
def scan {Cb : Type} (r : Reactor Cb) (fd_status : FdStatus) :
    List Usage → Option (Usage × Int × Cb)
  | [] => none
  | i :: is =>
    match (r.table i).find? (FDTest (fd_status.get i)) with
    | some file_des => some (i, file_des.1, file_des.2)
    | none => scan r fd_status is

/-- The values `0, 1, 2` of the loop index `i` of `Run`, as categories. -/
def usages : List Usage := [Usage.EXCEPT, Usage.READ, Usage.WRITE]

/-- The counter `emptyMaps` after the first `for` loop of `Run`. -/
def emptyMaps {Cb : Type} (r : Reactor Cb) : Nat :=
  (usages.filter (fun i => 0 == map_size (r.table i))).length

/-- What `Run` is observed to do: a `select` call with its three arguments, or the
call of the callback `cb` of table `usage` on `fd`, with the interface calls
the callback made and the way it ended. -/
inductive Event (Cb : Type) where
  | select (readfds writefds exceptfds : fd_set)
  | callback (usage : Usage) (fd : Int) (cb : Cb) (calls : List (Call Cb)) (exit : CbExit)
  deriving DecidableEq, Repr

/-- The events of the `select` calls of one `SelectFuncIMP` call. -/
def selectEvents (Cb : Type) (calls : List (fd_set × fd_set × fd_set)) : List (Event Cb) :=
  calls.map (fun c => Event.select c.1 c.2.1 c.2.2)

/-- How one round of the loop of `Run` ends: the loop goes on to its next test, an
exception propagates, the process is aborted by a failed assertion, or the
round stays blocked in `select`. -/
inductive RoundExit where
  | next
  | threw (e : Exn)
  | aborted
  | blocked
  deriving DecidableEq, Repr

/-- Result of one round of the loop: how it ended, the reactor afterwards, the
answers of the operating system not consumed, and what the round did. -/
structure RoundResult (Cb : Type) where
  exit : RoundExit
  state : Reactor Cb
  rest : List SelectReturn
  trace : List (Event Cb)
  deriving DecidableEq, Repr

/-- How a round ends after its callback ended. -/
def RoundExit.ofCallback : CbExit → RoundExit
  | CbExit.returned => RoundExit.next
  | CbExit.threw e => RoundExit.threw e
  | CbExit.aborted => RoundExit.aborted

/-- One round of the loop of `Run` past the two tests at its top: the sets are built,
`SelectFuncIMP` is called, and the tables are scanned in the order of the loop
index, the callback of the first element found ready being run.
`body wake cb fd` is what the callback `cb` does when it is called on `fd` in
round number `wake`. -/
def RunRound {Cb : Type} (fcntl : Int → Int) (body : Nat → Cb → Int → Prog Cb)
    (wake : Nat) (r : Reactor Cb) (answers : List SelectReturn) : RoundResult Cb :=
  let sel := SelectFuncIMP answers (init_fd_status r)
  match sel.exit with
  | SelectExit.blocked =>
    { exit := RoundExit.blocked, state := r, rest := sel.rest,
      trace := selectEvents Cb sel.calls }
  | SelectExit.threw e =>
    { exit := RoundExit.threw e, state := r, rest := sel.rest,
      trace := selectEvents Cb sel.calls }
  | SelectExit.returned =>
    match scan r sel.sets usages with
    | none =>
      { exit := RoundExit.next, state := r, rest := sel.rest,
        trace := selectEvents Cb sel.calls }
    | some (i, fd, cb) =>
      let res := runCallback fcntl (body wake cb fd) r
      { exit := RoundExit.ofCallback res.exit, state := res.state, rest := sel.rest,
        trace := selectEvents Cb sel.calls ++ [Event.callback i fd cb res.log res.exit] }

/-- How `Run` ends: it returns a status, an exception propagates out of it, the
process is aborted by a failed assertion, it stays blocked in `select`, or the
bound on the number of loop rounds of this model is used up. -/
inductive RunExit where
  | returned (s : Status)
  | threw (e : Exn)
  | aborted
  | blocked
  | outOfFuel
  deriving DecidableEq, Repr

/-- Result of `Run`: how it ended, the reactor at that point, the answers of the
operating system not consumed, and what it did, in order. -/
structure RunResult (Cb : Type) where
  exit : RunExit
  state : Reactor Cb
  rest : List SelectReturn
  trace : List (Event Cb)
  deriving DecidableEq, Repr

/-- The `while (m_isRunning)` loop of `Run`: the test of the flag, the test of the
three sizes, then one round; `fuel` bounds the number of rounds and `wake`
numbers them. -/
def RunLoop {Cb : Type} (fcntl : Int → Int) (body : Nat → Cb → Int → Prog Cb) :
    Nat → Nat → Reactor Cb → List SelectReturn → RunResult Cb
  | fuel, wake, r, answers =>
    if r.m_isRunning == false then
      { exit := RunExit.returned Status.STOP_CALLED, state := r, rest := answers, trace := [] }
    else if USAGE_COUNT == emptyMaps r then
      { exit := RunExit.returned Status.EMPTY, state := r, rest := answers, trace := [] }
    else
      match fuel with
      | 0 => { exit := RunExit.outOfFuel, state := r, rest := answers, trace := [] }
      | fuel1 + 1 =>
        let rd := RunRound fcntl body wake r answers
        match rd.exit with
        | RoundExit.blocked =>
          { exit := RunExit.blocked, state := rd.state, rest := rd.rest, trace := rd.trace }
        | RoundExit.aborted =>
          { exit := RunExit.aborted, state := rd.state, rest := rd.rest, trace := rd.trace }
        | RoundExit.threw e =>
          { exit := RunExit.threw e, state := rd.state, rest := rd.rest, trace := rd.trace }
        | RoundExit.next =>
          let out := RunLoop fcntl body fuel1 (wake + 1) rd.state rd.rest
          { out with trace := rd.trace ++ out.trace }

/-- The destructor `Finalizer::~Finalizer()`. -/
def Finalizer_dtor {Cb : Type} (m_r : Reactor Cb) : Reactor Cb :=
  { m_r with m_isRunning := false }

/-- The method `Reactor::Run`: sets the flag, runs the loop, and on the way out (by
`return` or by a propagating exception) the destructor of the `Finalizer`
clears the flag. -/
def Run {Cb : Type} (fcntl : Int → Int) (body : Nat → Cb → Int → Prog Cb) (fuel : Nat)
    (r : Reactor Cb) (answers : List SelectReturn) : RunResult Cb :=
  let out := RunLoop fcntl body fuel 0 { r with m_isRunning := true } answers
  match out.exit with
  | RunExit.returned _ => { out with state := Finalizer_dtor out.state }
  | RunExit.threw _ => { out with state := Finalizer_dtor out.state }
  | _ => out

/-- Successive calls `Add(fd, usage, cb)`, one for each pair of the list, in order:
the state after the last call and the exception thrown by each call, if any. -/
def AddEach {Cb : Type} (fcntl : Int → Int) (usage : Usage) :
    Reactor Cb → List (Int × Cb) → Reactor Cb × List (Option Exn)
  | r, [] => (r, [])
  | r, e :: rest =>
    let res := Add fcntl r e.1 usage e.2
    let out := AddEach fcntl usage res.1 rest
    (out.1, res.2 :: out.2)

/-- The two standard exception classes in which the hierarchy of `reactor.hpp` is
rooted. -/
inductive StdBase where
  | logic_error
  | runtime_error
  deriving DecidableEq, Repr

/-- The two base classes of the reactor's own exceptions. -/
inductive ReactorBase where
  | ExceptionReactorLogic
  | ExceptionReactorRuntime
  deriving DecidableEq, Repr

/-- Base class of each base class: `ExceptionReactorLogic : public std::logic_error`
and `ExceptionReactorRuntime : public std::runtime_error`. -/
def ReactorBase.stdBase : ReactorBase → StdBase
  | ReactorBase.ExceptionReactorLogic => StdBase.logic_error
  | ReactorBase.ExceptionReactorRuntime => StdBase.runtime_error

/-- Base class each exception class is declared with in `reactor.hpp`; `none` for the
standard exceptions that `SelectFuncIMP` throws as they are. -/
def Exn.reactorBase : Exn → Option ReactorBase
  | Exn.ExceptionRepeatingFD => some ReactorBase.ExceptionReactorLogic
  | Exn.ExceptionNonValidFD => some ReactorBase.ExceptionReactorLogic
  | Exn.ExceptionRemovingNonExistingFD => some ReactorBase.ExceptionReactorLogic
  | Exn.ExceptionFDsOverflow => some ReactorBase.ExceptionReactorRuntime
  | Exn.std_runtime_error => none
  | Exn.std_logic_error => none

/-- Standard exception class an exception derives from (or is). -/
def Exn.stdBase : Exn → StdBase
  | Exn.ExceptionRepeatingFD => ReactorBase.ExceptionReactorLogic.stdBase
  | Exn.ExceptionNonValidFD => ReactorBase.ExceptionReactorLogic.stdBase
  | Exn.ExceptionRemovingNonExistingFD => ReactorBase.ExceptionReactorLogic.stdBase
  | Exn.ExceptionFDsOverflow => ReactorBase.ExceptionReactorRuntime.stdBase
  | Exn.std_runtime_error => StdBase.runtime_error
  | Exn.std_logic_error => StdBase.logic_error

/-- A call of `Add` or of `Remove` by a user of the reactor; `Add` comes with the
answers of `fcntl(fd, F_GETFL)` at the time of the call. -/
inductive UserCall (Cb : Type) where
  | Add (fcntl : Int → Int) (fd : Int) (usage : Usage) (cb : Cb)
  | Remove (fd : Int) (usage : Usage)

/-- The reactor after one call of `Add` or `Remove`, whether it threw or not. -/
def applyCall {Cb : Type} (r : Reactor Cb) : UserCall Cb → Reactor Cb
  | UserCall.Add fcntl fd usage cb => (Add fcntl r fd usage cb).1
  | UserCall.Remove fd usage => (Remove r fd usage).1

/-- The reactor after a sequence of calls of `Add` and `Remove`. -/
def applyCalls {Cb : Type} (r : Reactor Cb) (calls : List (UserCall Cb)) : Reactor Cb :=
  calls.foldl applyCall r

/-- The invariant of a table: keys strictly ascending, all of them in `[0, 1024)`, at
most 1024 entries. -/
def table_inv {Cb : Type} (m : map_type Cb) : Prop :=
  map_ordered m ∧ (∀ k ∈ map_keys m, 0 ≤ k ∧ k < 1024) ∧ map_size m ≤ 1024

/-- Numeric value of a category, the value of the loop index `i` that addresses its
table and its set. -/
def Usage.index : Usage → Nat
  | Usage.EXCEPT => 0
  | Usage.READ => 1
  | Usage.WRITE => 2

/-- Whether an event of the record is the call of a callback. -/
def Event.isCallback {Cb : Type} : Event Cb → Bool
  | Event.select _ _ _ => false
  | Event.callback _ _ _ _ _ => true

/-- Number of callback calls in a record. -/
def callbackCount {Cb : Type} (t : List (Event Cb)) : Nat :=
  (t.filter Event.isCallback).length

/-! ## Sample states used to instantiate the theorems -/

/-- A reactor with one EXCEPT registration and three READ registrations. -/
def sampleReactor : Reactor Nat :=
  { m_isRunning := false,
    table_EXCEPT := [(3, 7)],
    table_READ := [(1, 10), (3, 11), (5, 12)],
    table_WRITE := [] }

/-- A process in which every descriptor is open: `fcntl(fd, F_GETFL)` gives `0`. -/
def allOpen : Int → Int := fun _ => 0

/-- The table with the keys `0, ..., n - 1`, each mapped to a callback of the same
number. -/
def rangeTable (n : Nat) : map_type Nat := (List.range n).map (fun (i : Nat) => ((i : Int), i))

/-- A reactor whose READ table holds the 1023 descriptors `0, ..., 1022`. -/
def almostFullReactor : Reactor Nat :=
  { m_isRunning := false, table_EXCEPT := [], table_READ := rangeTable 1023, table_WRITE := [] }

/-- A reactor whose READ table holds the 1024 descriptors `0, ..., 1023`. -/
def fullReactor : Reactor Nat :=
  { m_isRunning := false, table_EXCEPT := [], table_READ := rangeTable 1024, table_WRITE := [] }

/-- A reactor with the single registration of descriptor 3 for READ. -/
def loneReactor : Reactor Nat :=
  { m_isRunning := false, table_EXCEPT := [], table_READ := [(3, 11)], table_WRITE := [] }

/-- Callbacks for the sample reactors: callback 11 removes its descriptor from the
READ table and calls `Stop`; every other callback returns at once. -/
def stopBody : Nat → Nat → Int → Prog Nat :=
  fun _ cb fd =>
    if cb = 11 then Prog.Remove fd Usage.READ (fun _ => Prog.Stop Prog.ret) else Prog.ret

/-! ## Lemmas on the `std::map` operations -/

section MapLemmas

variable {Cb : Type}

theorem map_insert_false_eq (k : Int) (v : Cb) (m : map_type Cb) :
    (map_insert k v m).2 = false → (map_insert k v m).1 = m := by
  induction m with
  | nil => simp [map_insert]
  | cons e rest ih =>
    unfold map_insert
    by_cases h1 : k < e.1
    · simp [h1]
    · by_cases h2 : e.1 < k
      · simp only [h1, h2, if_true, if_false]
        intro h
        rw [ih h]
      · simp [h1, h2]

theorem map_insert_false_mem (k : Int) (v : Cb) (m : map_type Cb) :
    (map_insert k v m).2 = false → k ∈ map_keys m := by
  induction m with
  | nil => simp [map_insert]
  | cons e rest ih =>
    unfold map_insert
    by_cases h1 : k < e.1
    · simp [h1]
    · by_cases h2 : e.1 < k
      · simp only [h1, h2, if_true, if_false]
        intro h
        have := ih h
        simp only [map_keys, List.map_cons, List.mem_cons] at this ⊢
        exact Or.inr this
      · intro _
        have : k = e.1 := by omega
        simp [map_keys, this]

theorem map_ordered_tail {e : Int × Cb} {rest : map_type Cb}
    (h : map_ordered (e :: rest)) : map_ordered rest := by
  unfold map_ordered map_keys at *
  simp only [List.map_cons, List.pairwise_cons] at h
  exact h.2

theorem map_ordered_head_lt {e : Int × Cb} {rest : map_type Cb}
    (h : map_ordered (e :: rest)) : ∀ k ∈ map_keys rest, e.1 < k := by
  unfold map_ordered map_keys at *
  simp only [List.map_cons, List.pairwise_cons] at h
  exact h.1

theorem map_insert_mem_false (k : Int) (v : Cb) (m : map_type Cb) (ho : map_ordered m) :
    k ∈ map_keys m → (map_insert k v m).2 = false := by
  induction m with
  | nil => simp [map_keys]
  | cons e rest ih =>
    intro hk
    unfold map_insert
    simp only [map_keys, List.map_cons, List.mem_cons] at hk
    rcases hk with hk | hk
    · have h1 : ¬ k < e.1 := by omega
      have h2 : ¬ e.1 < k := by omega
      simp [h1, h2]
    · have hlt := map_ordered_head_lt ho k hk
      have h1 : ¬ k < e.1 := by omega
      simp only [h1, hlt, if_true, if_false]
      exact ih (map_ordered_tail ho) hk

theorem map_insert_true_perm (k : Int) (v : Cb) (m : map_type Cb) :
    (map_insert k v m).2 = true → List.Perm (map_insert k v m).1 ((k, v) :: m) := by
  induction m with
  | nil => simp [map_insert]
  | cons e rest ih =>
    unfold map_insert
    by_cases h1 : k < e.1
    · simp [h1]
    · by_cases h2 : e.1 < k
      · simp only [h1, h2, if_true, if_false]
        intro h
        exact ((ih h).cons e).trans (List.Perm.swap (k, v) e rest)
      · simp [h1, h2]

theorem map_insert_length (k : Int) (v : Cb) (m : map_type Cb) :
    (map_insert k v m).2 = true → (map_insert k v m).1.length = m.length + 1 := by
  intro h
  simpa using (map_insert_true_perm k v m h).length_eq

theorem map_find_eq_none_iff (k : Int) (m : map_type Cb) :
    map_find k m = none ↔ k ∉ map_keys m := by
  induction m with
  | nil => simp [map_find, map_keys]
  | cons e rest ih =>
    unfold map_find
    by_cases h : e.1 < k ∨ k < e.1
    · simp only [h, if_true, ih, map_keys, List.map_cons, List.mem_cons, not_or]
      constructor
      · intro hr
        exact ⟨by omega, hr⟩
      · intro hr
        exact hr.2
    · have : k = e.1 := by omega
      simp [h, map_keys, this]

theorem map_find_key (k : Int) (m : map_type Cb) (e : Int × Cb) :
    map_find k m = some e → e.1 = k ∧ e ∈ m := by
  induction m with
  | nil => simp [map_find]
  | cons a rest ih =>
    unfold map_find
    by_cases h : a.1 < k ∨ k < a.1
    · simp only [h, if_true]
      intro hf
      exact ⟨(ih hf).1, List.mem_cons_of_mem _ (ih hf).2⟩
    · simp only [h, if_false, Option.some.injEq]
      intro hf
      subst hf
      exact ⟨by omega, List.mem_cons_self _ _⟩

theorem map_find_insert_self (k : Int) (v : Cb) (m : map_type Cb) :
    (map_insert k v m).2 = true → map_find k (map_insert k v m).1 = some (k, v) := by
  induction m with
  | nil => simp [map_insert, map_find]
  | cons e rest ih =>
    unfold map_insert
    by_cases h1 : k < e.1
    · simp [h1, map_find]
    · by_cases h2 : e.1 < k
      · simp only [h1, h2, if_true, if_false]
        intro h
        rw [map_find]
        simp only [h2, true_or, if_true]
        exact ih h
      · simp [h1, h2]

theorem map_find_insert_other (k : Int) (v : Cb) (m : map_type Cb) (j : Int) (hj : j ≠ k) :
    map_find j (map_insert k v m).1 = map_find j m := by
  induction m with
  | nil =>
    have : k < j ∨ j < k := by omega
    simp [map_insert, map_find, this]
  | cons e rest ih =>
    unfold map_insert
    by_cases h1 : k < e.1
    · have : k < j ∨ j < k := by omega
      simp only [h1, if_true]
      rw [map_find]
      simp [this]
    · by_cases h2 : e.1 < k
      · simp only [h1, h2, if_true, if_false]
        rw [map_find, map_find, ih]
      · simp [h1, h2]

theorem map_insert_second_false (k : Int) (v w : Cb) (m : map_type Cb) :
    (map_insert k v m).2 = true →
      map_insert k w (map_insert k v m).1 = ((map_insert k v m).1, false) := by
  induction m with
  | nil => simp [map_insert]
  | cons e rest ih =>
    by_cases h1 : k < e.1
    · intro _
      have : map_insert k v (e :: rest) = ((k, v) :: e :: rest, true) := by
        rw [map_insert]; simp [h1]
      rw [this]
      rw [map_insert]
      simp
    · by_cases h2 : e.1 < k
      · have : map_insert k v (e :: rest)
            = (e :: (map_insert k v rest).1, (map_insert k v rest).2) := by
          rw [map_insert]; simp [h1, h2]
        rw [this]
        intro h
        rw [map_insert]
        simp only [h1, h2, if_true, if_false]
        rw [ih h]
      · intro h
        rw [map_insert] at h
        simp [h1, h2] at h

theorem map_ordered_insert (k : Int) (v : Cb) (m : map_type Cb) (ho : map_ordered m) :
    map_ordered (map_insert k v m).1 := by
  have key : ∀ (m : map_type Cb), map_ordered m →
      map_ordered (map_insert k v m).1 ∧
        ∀ b : Int, (b < k ∧ ∀ j ∈ map_keys m, b < j) →
          ∀ j ∈ map_keys (map_insert k v m).1, b < j := by
    intro m
    induction m with
    | nil =>
      intro _
      refine ⟨by simp [map_insert, map_ordered, map_keys], ?_⟩
      intro b hb j hj
      simp only [map_insert, map_keys, List.map_cons, List.map_nil, List.mem_singleton] at hj
      omega
    | cons e rest ih =>
      intro ho
      have iht := ih (map_ordered_tail ho)
      have hhead := map_ordered_head_lt ho
      by_cases h1 : k < e.1
      · have hins : map_insert k v (e :: rest) = ((k, v) :: e :: rest, true) := by
          rw [map_insert]; simp [h1]
        rw [hins]
        constructor
        · unfold map_ordered map_keys at ho ⊢
          simp only [List.map_cons, List.pairwise_cons] at ho ⊢
          refine ⟨?_, ho⟩
          intro j hj
          simp only [List.mem_cons] at hj
          rcases hj with hj | hj
          · omega
          · have := ho.1 j hj
            omega
        · intro b hb j hj
          simp only [map_keys, List.map_cons, List.mem_cons] at hj
          rcases hj with hj | hj
          · omega
          · exact hb.2 j (by simpa [map_keys] using hj)
      · by_cases h2 : e.1 < k
        · have hins : map_insert k v (e :: rest)
              = (e :: (map_insert k v rest).1, (map_insert k v rest).2) := by
            rw [map_insert]; simp [h1, h2]
          rw [hins]
          constructor
          · have h3 := iht.2 e.1 ⟨h2, hhead⟩
            unfold map_ordered at iht ⊢
            simp only [map_keys, List.map_cons, List.pairwise_cons]
            exact ⟨h3, iht.1⟩
          · intro b hb j hj
            simp only [map_keys, List.map_cons, List.mem_cons] at hj
            rcases hj with hj | hj
            · have := hb.2 e.1 (by simp [map_keys])
              omega
            · have hb1 : ∀ j ∈ map_keys rest, b < j := by
                intro j hj
                exact hb.2 j (by simp only [map_keys, List.map_cons, List.mem_cons]; exact Or.inr hj)
              exact iht.2 b ⟨hb.1, hb1⟩ j hj
        · have hins : map_insert k v (e :: rest) = (e :: rest, false) := by
            rw [map_insert]; simp [h1, h2]
          rw [hins]
          refine ⟨ho, ?_⟩
          intro b hb j hj
          exact hb.2 j hj
  exact (key m ho).1

end MapLemmas

section EraseLemmas

variable {Cb : Type}

theorem map_erase_subset (k : Int) (m : map_type Cb) :
    ∀ j ∈ map_keys (map_erase k m), j ∈ map_keys m := by
  induction m with
  | nil => simp [map_erase]
  | cons e rest ih =>
    intro j hj
    unfold map_erase at hj
    by_cases h : e.1 < k ∨ k < e.1
    · simp only [h, if_true, map_keys, List.map_cons, List.mem_cons] at hj ⊢
      rcases hj with hj | hj
      · exact Or.inl hj
      · exact Or.inr (ih j hj)
    · simp only [h, if_false] at hj
      simp only [map_keys, List.map_cons, List.mem_cons]
      exact Or.inr hj

theorem map_ordered_erase (k : Int) (m : map_type Cb) (ho : map_ordered m) :
    map_ordered (map_erase k m) := by
  induction m with
  | nil => simpa [map_erase] using ho
  | cons e rest ih =>
    unfold map_erase
    by_cases h : e.1 < k ∨ k < e.1
    · simp only [h, if_true]
      have h1 := ih (map_ordered_tail ho)
      have h2 := map_ordered_head_lt ho
      unfold map_ordered at h1 ⊢
      simp only [map_keys, List.map_cons, List.pairwise_cons]
      exact ⟨fun j hj => h2 j (map_erase_subset k rest j hj), h1⟩
    · simp only [h, if_false]
      exact map_ordered_tail ho

theorem map_erase_not_mem (k : Int) (m : map_type Cb) (ho : map_ordered m) :
    k ∉ map_keys (map_erase k m) := by
  induction m with
  | nil => simp [map_erase, map_keys]
  | cons e rest ih =>
    unfold map_erase
    by_cases h : e.1 < k ∨ k < e.1
    · simp only [h, if_true, map_keys, List.map_cons, List.mem_cons, not_or]
      exact ⟨by omega, ih (map_ordered_tail ho)⟩
    · simp only [h, if_false]
      intro hk
      have := map_ordered_head_lt ho k hk
      omega

theorem map_find_erase_other (k : Int) (m : map_type Cb) (j : Int) (hj : j ≠ k) :
    map_find j (map_erase k m) = map_find j m := by
  induction m with
  | nil => simp [map_erase]
  | cons e rest ih =>
    unfold map_erase
    by_cases h : e.1 < k ∨ k < e.1
    · simp only [h, if_true]
      rw [map_find, map_find, ih]
    · simp only [h, if_false]
      have : e.1 < j ∨ j < e.1 := by omega
      rw [map_find.eq_2]
      simp [this]

theorem map_erase_length (k : Int) (m : map_type Cb) (hk : k ∈ map_keys m) :
    (map_erase k m).length + 1 = m.length := by
  induction m with
  | nil => simp [map_keys] at hk
  | cons e rest ih =>
    unfold map_erase
    by_cases h : e.1 < k ∨ k < e.1
    · simp only [h, if_true, List.length_cons]
      simp only [map_keys, List.map_cons, List.mem_cons] at hk
      rcases hk with hk | hk
      · omega
      · have := ih hk
        omega
    · simp [h]

end EraseLemmas

/-! ## Lemmas on the reactor state -/

section ReactorLemmas

variable {Cb : Type}

theorem table_setTable_same (r : Reactor Cb) (u : Usage) (m : map_type Cb) :
    (r.setTable u m).table u = m := by
  cases u <;> rfl

theorem table_setTable_other (r : Reactor Cb) (u w : Usage) (m : map_type Cb) (h : w ≠ u) :
    (r.setTable u m).table w = r.table w := by
  cases u <;> cases w <;> first | rfl | exact absurd rfl h

theorem isRunning_setTable (r : Reactor Cb) (u : Usage) (m : map_type Cb) :
    (r.setTable u m).m_isRunning = r.m_isRunning := by
  cases u <;> rfl

theorem setTable_table (r : Reactor Cb) (u : Usage) : r.setTable u (r.table u) = r := by
  cases u <;> rfl

/-- The three branches of `Add`, by the three tests of the source. -/
theorem Add_invalid (fcntl : Int → Int) (r : Reactor Cb) (fd : Int) (u : Usage) (cb : Cb)
    (h : fd < 0 ∨ 1024 ≤ fd ∨ fcntl fd = -1) :
    Add fcntl r fd u cb = (r, some Exn.ExceptionNonValidFD) := by
  have h1 : ((0 > fd) || ((limit ≤ fd) || (-1 == fcntl fd))) = true := by
    simp only [Bool.or_eq_true, decide_eq_true_eq, beq_iff_eq, limit]
    rcases h with h | h | h
    · exact Or.inl h
    · exact Or.inr (Or.inl h)
    · exact Or.inr (Or.inr h.symm)
  simp only [Add, h1, if_true]

theorem Add_full (fcntl : Int → Int) (r : Reactor Cb) (fd : Int) (u : Usage) (cb : Cb)
    (h : ¬ (fd < 0 ∨ 1024 ≤ fd ∨ fcntl fd = -1)) (hfull : map_size (r.table u) = 1024) :
    Add fcntl r fd u cb = (r, some Exn.ExceptionFDsOverflow) := by
  have h1 : ((0 > fd) || ((limit ≤ fd) || (-1 == fcntl fd))) = false := by
    rw [Bool.eq_false_iff]
    simp only [ne_eq, Bool.or_eq_true, decide_eq_true_eq, beq_iff_eq, limit]
    intro hc
    apply h
    rcases hc with hc | hc | hc
    · exact Or.inl hc
    · exact Or.inr (Or.inl hc)
    · exact Or.inr (Or.inr hc.symm)
  have h2 : ((map_size (r.table u) : Int) == limit) = true := by
    simp [hfull, limit]
  simp only [Add, h1, h2, if_true, Bool.false_eq_true, if_false]

theorem Add_insert (fcntl : Int → Int) (r : Reactor Cb) (fd : Int) (u : Usage) (cb : Cb)
    (h : ¬ (fd < 0 ∨ 1024 ≤ fd ∨ fcntl fd = -1)) (hfull : map_size (r.table u) ≠ 1024) :
    Add fcntl r fd u cb
      = (r.setTable u (map_insert fd cb (r.table u)).1,
          if (map_insert fd cb (r.table u)).2 = false then
            some Exn.ExceptionRepeatingFD else none) := by
  have h1 : ((0 > fd) || ((limit ≤ fd) || (-1 == fcntl fd))) = false := by
    rw [Bool.eq_false_iff]
    simp only [ne_eq, Bool.or_eq_true, decide_eq_true_eq, beq_iff_eq, limit]
    intro hc
    apply h
    rcases hc with hc | hc | hc
    · exact Or.inl hc
    · exact Or.inr (Or.inl hc)
    · exact Or.inr (Or.inr hc.symm)
  have h2 : ((map_size (r.table u) : Int) == limit) = false := by
    rw [Bool.eq_false_iff]
    simp only [ne_eq, beq_iff_eq, limit]
    intro hc
    apply hfull
    exact_mod_cast hc
  simp only [Add, h1, h2, Bool.false_eq_true, if_false]
  cases hb : (map_insert fd cb (r.table u)).2 <;> simp

/-- A successful `Add` passed all three tests. -/
theorem Add_none (fcntl : Int → Int) (r : Reactor Cb) (fd : Int) (u : Usage) (cb : Cb)
    (h : (Add fcntl r fd u cb).2 = none) :
    ¬ (fd < 0 ∨ 1024 ≤ fd ∨ fcntl fd = -1) ∧ map_size (r.table u) ≠ 1024 ∧
      (map_insert fd cb (r.table u)).2 = true ∧
      (Add fcntl r fd u cb).1 = r.setTable u (map_insert fd cb (r.table u)).1 := by
  by_cases hi : fd < 0 ∨ 1024 ≤ fd ∨ fcntl fd = -1
  · rw [Add_invalid fcntl r fd u cb hi] at h
    simp at h
  · by_cases hf : map_size (r.table u) = 1024
    · rw [Add_full fcntl r fd u cb hi hf] at h
      simp at h
    · rw [Add_insert fcntl r fd u cb hi hf] at h ⊢
      cases hb : (map_insert fd cb (r.table u)).2
      · simp [hb] at h
      · exact ⟨hi, hf, rfl, rfl⟩

end ReactorLemmas

/-! ## Claims on `Add` -/

section AddClaims

variable {Cb : Type}

/-- C1: `Add` decides its outcome by three tests in order, the first failing one
wins: it throws `ExceptionNonValidFD` iff `fd < 0`, `fd >= 1024` or the `fcntl`
probe gives `-1`; otherwise it throws `ExceptionFDsOverflow` iff the table of the
category holds exactly 1024 entries; otherwise it throws `ExceptionRepeatingFD`
iff `fd` is already a key of that table; otherwise it succeeds. -/
theorem Add_checks_in_order (fcntl : Int → Int) (r : Reactor Cb) (fd : Int) (usage : Usage)
    (cb : Cb) (ho : map_ordered (r.table usage)) :
    ((Add fcntl r fd usage cb).2 = some Exn.ExceptionNonValidFD
        ↔ (fd < 0 ∨ 1024 ≤ fd ∨ fcntl fd = -1)) ∧
    (¬ (fd < 0 ∨ 1024 ≤ fd ∨ fcntl fd = -1) →
      ((Add fcntl r fd usage cb).2 = some Exn.ExceptionFDsOverflow
        ↔ map_size (r.table usage) = 1024)) ∧
    (¬ (fd < 0 ∨ 1024 ≤ fd ∨ fcntl fd = -1) → map_size (r.table usage) ≠ 1024 →
      ((Add fcntl r fd usage cb).2 = some Exn.ExceptionRepeatingFD
        ↔ fd ∈ map_keys (r.table usage))) ∧
    (¬ (fd < 0 ∨ 1024 ≤ fd ∨ fcntl fd = -1) → map_size (r.table usage) ≠ 1024 →
      fd ∉ map_keys (r.table usage) → (Add fcntl r fd usage cb).2 = none) := by
  have hdup : (map_insert fd cb (r.table usage)).2 = false ↔ fd ∈ map_keys (r.table usage) :=
    ⟨map_insert_false_mem fd cb _, map_insert_mem_false fd cb _ ho⟩
  refine ⟨?_, ?_, ?_, ?_⟩
  · constructor
    · intro h
      by_contra hi
      by_cases hf : map_size (r.table usage) = 1024
      · rw [Add_full fcntl r fd usage cb hi hf] at h
        simp at h
      · rw [Add_insert fcntl r fd usage cb hi hf] at h
        by_cases hb : (map_insert fd cb (r.table usage)).2 = false <;> simp [hb] at h
    · intro hi
      rw [Add_invalid fcntl r fd usage cb hi]
  · intro hi
    constructor
    · intro h
      by_contra hf
      rw [Add_insert fcntl r fd usage cb hi hf] at h
      by_cases hb : (map_insert fd cb (r.table usage)).2 = false <;> simp [hb] at h
    · intro hf
      rw [Add_full fcntl r fd usage cb hi hf]
  · intro hi hf
    rw [Add_insert fcntl r fd usage cb hi hf, ← hdup]
    by_cases hb : (map_insert fd cb (r.table usage)).2 = false <;> simp [hb]
  · intro hi hf hk
    rw [Add_insert fcntl r fd usage cb hi hf]
    have hb : ¬ (map_insert fd cb (r.table usage)).2 = false := fun hb => hk (hdup.mp hb)
    simp [hb]

/-- Witness of C1 on the sample reactor: descriptor 3 is valid, the READ table is
not full and holds 3, so `Add` throws `ExceptionRepeatingFD`. -/
theorem Add_checks_in_order_witness :
    map_ordered (sampleReactor.table Usage.READ) ∧
      (Add allOpen sampleReactor 3 Usage.READ 99).2 = some Exn.ExceptionRepeatingFD :=
  ⟨by decide,
    ((Add_checks_in_order allOpen sampleReactor 3 Usage.READ 99 (by decide)).2.2.1
      (by decide) (by decide)).mpr (by decide)⟩

/-- C2: a call of `Add` that throws leaves the reactor exactly as it was: the three
tables, with their keys and callbacks, and the flag `m_isRunning`. -/
theorem Add_failure_atomic (fcntl : Int → Int) (r : Reactor Cb) (fd : Int) (usage : Usage)
    (cb : Cb) (hfail : (Add fcntl r fd usage cb).2 ≠ none) :
    (Add fcntl r fd usage cb).1 = r ∧
      (Add fcntl r fd usage cb).1.table Usage.EXCEPT = r.table Usage.EXCEPT ∧
      (Add fcntl r fd usage cb).1.table Usage.READ = r.table Usage.READ ∧
      (Add fcntl r fd usage cb).1.table Usage.WRITE = r.table Usage.WRITE ∧
      (Add fcntl r fd usage cb).1.m_isRunning = r.m_isRunning := by
  have key : (Add fcntl r fd usage cb).1 = r := by
    by_cases hi : fd < 0 ∨ 1024 ≤ fd ∨ fcntl fd = -1
    · rw [Add_invalid fcntl r fd usage cb hi]
    · by_cases hf : map_size (r.table usage) = 1024
      · rw [Add_full fcntl r fd usage cb hi hf]
      · rw [Add_insert fcntl r fd usage cb hi hf] at hfail ⊢
        by_cases hb : (map_insert fd cb (r.table usage)).2 = false
        · show r.setTable usage (map_insert fd cb (r.table usage)).1 = r
          rw [map_insert_false_eq fd cb _ hb, setTable_table]
        · simp [hb] at hfail
  rw [key]
  exact ⟨rfl, rfl, rfl, rfl, rfl⟩

/-- Witness of C2: the rejected second registration of descriptor 3 for READ leaves
the sample reactor unchanged. -/
theorem Add_failure_atomic_witness :
    (Add allOpen sampleReactor 3 Usage.READ 99).2 ≠ none ∧
      (Add allOpen sampleReactor 3 Usage.READ 99).1 = sampleReactor :=
  ⟨by decide, (Add_failure_atomic allOpen sampleReactor 3 Usage.READ 99 (by decide)).1⟩

/-- What holds of two successive calls `Add(d, c, cb)`, `Add(d, c, cb2)` when the
first one succeeds: the second one throws, the exception being decided by the
size test, which the source makes before the insertion. -/
theorem Add_again (fcntl : Int → Int) (r : Reactor Cb) (d : Int) (c : Usage)
    (cb cb2 : Cb) (hok : (Add fcntl r d c cb).2 = none) :
    (map_size ((Add fcntl r d c cb).1.table c) ≠ 1024 →
        (Add fcntl (Add fcntl r d c cb).1 d c cb2).2 = some Exn.ExceptionRepeatingFD) ∧
      (map_size ((Add fcntl r d c cb).1.table c) = 1024 →
        (Add fcntl (Add fcntl r d c cb).1 d c cb2).2 = some Exn.ExceptionFDsOverflow) ∧
      (Add fcntl (Add fcntl r d c cb).1 d c cb2).1 = (Add fcntl r d c cb).1 ∧
      map_find d ((Add fcntl r d c cb).1.table c) = some (d, cb) := by
  obtain ⟨hi, _, hb, hst⟩ := Add_none fcntl r d c cb hok
  have hfind : map_find d ((Add fcntl r d c cb).1.table c) = some (d, cb) := by
    rw [hst, table_setTable_same]
    exact map_find_insert_self d cb _ hb
  have hsecond : map_insert d cb2 ((Add fcntl r d c cb).1.table c)
      = ((Add fcntl r d c cb).1.table c, false) := by
    rw [hst, table_setTable_same]
    exact map_insert_second_false d cb cb2 (r.table c) hb
  refine ⟨?_, ?_, ?_, hfind⟩
  · intro hf2
    rw [Add_insert fcntl _ d c cb2 hi hf2, hsecond]
    simp
  · intro hf2
    rw [Add_full fcntl _ d c cb2 hi hf2]
  · by_cases hf2 : map_size ((Add fcntl r d c cb).1.table c) = 1024
    · rw [Add_full fcntl _ d c cb2 hi hf2]
    · rw [Add_insert fcntl _ d c cb2 hi hf2, hsecond]
      exact setTable_table _ c

theorem rangeTable_length (n : Nat) : map_size (rangeTable n) = n := by
  simp [rangeTable, map_size]

theorem rangeTable_keys (n : Nat) (k : Int) : k ∈ map_keys (rangeTable n) ↔ 0 ≤ k ∧ k < n := by
  simp only [map_keys, rangeTable, List.map_map, List.mem_map, List.mem_range,
    Function.comp_apply]
  constructor
  · rintro ⟨a, ha, rfl⟩
    omega
  · intro h
    exact ⟨k.toNat, by omega, by omega⟩

/-- C3 (counterexample): with the descriptors `0, ..., 1022` registered for READ,
`Add(1023, READ, 0)` succeeds and fills the table, and the `Add(1023, READ, 1)`
that follows throws `ExceptionFDsOverflow`, not `ExceptionRepeatingFD`. -/
theorem Add_twice_not_repeating :
    (Add allOpen almostFullReactor 1023 Usage.READ 0).2 = none ∧
      (Add allOpen (Add allOpen almostFullReactor 1023 Usage.READ 0).1 1023 Usage.READ 1).2
        = some Exn.ExceptionFDsOverflow ∧
      (Add allOpen (Add allOpen almostFullReactor 1023 Usage.READ 0).1 1023 Usage.READ 1).2
        ≠ some Exn.ExceptionRepeatingFD := by
  have hi : ¬ ((1023 : Int) < 0 ∨ (1024 : Int) ≤ 1023 ∨ allOpen 1023 = -1) := by
    simp [allOpen]
  have htab : almostFullReactor.table Usage.READ = rangeTable 1023 := by
    simp only [almostFullReactor, Reactor.table]
  have hsz : map_size (almostFullReactor.table Usage.READ) = 1023 := by
    rw [htab]; exact rangeTable_length 1023
  have hf : map_size (almostFullReactor.table Usage.READ) ≠ 1024 := by
    rw [hsz]; omega
  have hk : (1023 : Int) ∉ map_keys (almostFullReactor.table Usage.READ) := by
    intro h
    rw [htab] at h
    have := (rangeTable_keys 1023 1023).mp h
    omega
  have hb : (map_insert 1023 0 (almostFullReactor.table Usage.READ)).2 = true := by
    cases h : (map_insert 1023 0 (almostFullReactor.table Usage.READ)).2
    · exact absurd (map_insert_false_mem _ _ _ h) hk
    · rfl
  have hok : (Add allOpen almostFullReactor 1023 Usage.READ 0).2 = none := by
    rw [Add_insert allOpen _ 1023 Usage.READ 0 hi hf]
    simp [hb]
  have hfull : map_size ((Add allOpen almostFullReactor 1023 Usage.READ 0).1.table Usage.READ)
      = 1024 := by
    rw [Add_insert allOpen _ 1023 Usage.READ 0 hi hf, table_setTable_same]
    have := map_insert_length 1023 0 (almostFullReactor.table Usage.READ) hb
    unfold map_size at hsz ⊢
    omega
  have h2 := Add_full allOpen _ 1023 Usage.READ 1 hi hfull
  refine ⟨hok, ?_, ?_⟩
  · rw [h2]
  · rw [h2]
    decide

/-- C3 (amended): when `Add(d, c, cb)` succeeds, `Add(d, c, cb2)` called right after
it (the descriptor still open) throws and changes nothing, and `d` is still
registered in `c` with the callback `cb`; the exception is
`ExceptionRepeatingFD` when the table of `c` then holds other than 1024 entries
and `ExceptionFDsOverflow` when the first call brought it to 1024 entries. -/
theorem Add_twice_fails (fcntl : Int → Int) (r : Reactor Cb) (d : Int) (c : Usage)
    (cb cb2 : Cb) (hok : (Add fcntl r d c cb).2 = none) :
    (map_size ((Add fcntl r d c cb).1.table c) ≠ 1024 →
        (Add fcntl (Add fcntl r d c cb).1 d c cb2).2 = some Exn.ExceptionRepeatingFD) ∧
      (map_size ((Add fcntl r d c cb).1.table c) = 1024 →
        (Add fcntl (Add fcntl r d c cb).1 d c cb2).2 = some Exn.ExceptionFDsOverflow) ∧
      (Add fcntl (Add fcntl r d c cb).1 d c cb2).2 ≠ none ∧
      (Add fcntl (Add fcntl r d c cb).1 d c cb2).1 = (Add fcntl r d c cb).1 ∧
      map_find d ((Add fcntl (Add fcntl r d c cb).1 d c cb2).1.table c) = some (d, cb) := by
  obtain ⟨h1, h2, h3, h4⟩ := Add_again fcntl r d c cb cb2 hok
  refine ⟨h1, h2, ?_, h3, ?_⟩
  · by_cases hf : map_size ((Add fcntl r d c cb).1.table c) = 1024
    · rw [h2 hf]; simp
    · rw [h1 hf]; simp
  · rw [h3]
    exact h4

/-- Witness of C3 (amended): on the sample reactor `Add(4, READ, 20)` succeeds and
the `Add(4, READ, 21)` that follows throws `ExceptionRepeatingFD`, leaving
descriptor 4 registered with callback 20. -/
theorem Add_twice_fails_witness :
    (Add allOpen sampleReactor 4 Usage.READ 20).2 = none ∧
      (Add allOpen (Add allOpen sampleReactor 4 Usage.READ 20).1 4 Usage.READ 21).2
        = some Exn.ExceptionRepeatingFD ∧
      map_find 4 ((Add allOpen (Add allOpen sampleReactor 4 Usage.READ 20).1 4
        Usage.READ 21).1.table Usage.READ) = some (4, 20) :=
  ⟨by decide,
    (Add_twice_fails allOpen sampleReactor 4 Usage.READ 20 21 (by decide)).1 (by decide),
    (Add_twice_fails allOpen sampleReactor 4 Usage.READ 20 21 (by decide)).2.2.2.2⟩

/-- C5: after a successful `Add(fd, usage, cb)` the table of `usage` is the old table
with the one new entry `fd -> cb` (`fd` was not a key, every other key keeps its
callback), the tables of the two other categories are unchanged and so is the
flag `m_isRunning`. -/
theorem Add_success_frame (fcntl : Int → Int) (r : Reactor Cb) (fd : Int) (usage : Usage)
    (cb : Cb) (ho : map_ordered (r.table usage)) (hok : (Add fcntl r fd usage cb).2 = none) :
    fd ∉ map_keys (r.table usage) ∧
      List.Perm ((Add fcntl r fd usage cb).1.table usage) ((fd, cb) :: r.table usage) ∧
      map_ordered ((Add fcntl r fd usage cb).1.table usage) ∧
      map_find fd ((Add fcntl r fd usage cb).1.table usage) = some (fd, cb) ∧
      (∀ j : Int, j ≠ fd →
        map_find j ((Add fcntl r fd usage cb).1.table usage) = map_find j (r.table usage)) ∧
      (∀ w : Usage, w ≠ usage → (Add fcntl r fd usage cb).1.table w = r.table w) ∧
      (Add fcntl r fd usage cb).1.m_isRunning = r.m_isRunning := by
  obtain ⟨_, _, hb, hst⟩ := Add_none fcntl r fd usage cb hok
  rw [hst, table_setTable_same, isRunning_setTable]
  refine ⟨?_, map_insert_true_perm fd cb _ hb, map_ordered_insert fd cb _ ho,
    map_find_insert_self fd cb _ hb, fun j hj => map_find_insert_other fd cb _ j hj,
    fun w hw => table_setTable_other r usage w _ hw, rfl⟩
  intro hk
  rw [map_insert_mem_false fd cb _ ho hk] at hb
  exact absurd hb (by decide)

/-- Witness of C5: registering descriptor 4 for READ on the sample reactor. -/
theorem Add_success_frame_witness :
    (Add allOpen sampleReactor 4 Usage.READ 20).2 = none ∧
      List.Perm ((Add allOpen sampleReactor 4 Usage.READ 20).1.table Usage.READ)
        ((4, 20) :: sampleReactor.table Usage.READ) :=
  ⟨by decide,
    (Add_success_frame allOpen sampleReactor 4 Usage.READ 20 (by decide) (by decide)).2.1⟩

theorem map_keys_insert (k : Int) (v : Cb) (m : map_type Cb)
    (h : (map_insert k v m).2 = true) (j : Int) :
    j ∈ map_keys (map_insert k v m).1 ↔ j = k ∨ j ∈ map_keys m := by
  have hp := (map_insert_true_perm k v m h).map Prod.fst
  unfold map_keys
  rw [hp.mem_iff]
  simp

/-- A fresh valid descriptor added to a table that is not full: `Add` succeeds. -/
theorem Add_fresh (fcntl : Int → Int) (r : Reactor Cb) (fd : Int) (u : Usage) (cb : Cb)
    (hi : ¬ (fd < 0 ∨ 1024 ≤ fd ∨ fcntl fd = -1)) (hf : map_size (r.table u) ≠ 1024)
    (hk : fd ∉ map_keys (r.table u)) :
    (map_insert fd cb (r.table u)).2 = true ∧
      Add fcntl r fd u cb = (r.setTable u (map_insert fd cb (r.table u)).1, none) := by
  have hb : (map_insert fd cb (r.table u)).2 = true := by
    cases h : (map_insert fd cb (r.table u)).2
    · exact absurd (map_insert_false_mem _ _ _ h) hk
    · rfl
  refine ⟨hb, ?_⟩
  rw [Add_insert fcntl r fd u cb hi hf]
  simp [hb]

theorem AddEach_fresh (fcntl : Int → Int) (u : Usage) (l : List (Int × Cb)) :
    ∀ r : Reactor Cb,
      (l.map Prod.fst).Nodup →
      (∀ e ∈ l, e.1 ∉ map_keys (r.table u)) →
      (∀ e ∈ l, ¬ (e.1 < 0 ∨ 1024 ≤ e.1 ∨ fcntl e.1 = -1)) →
      map_size (r.table u) + l.length ≤ 1024 →
      (∀ o ∈ (AddEach fcntl u r l).2, o = none) ∧
        (AddEach fcntl u r l).2.length = l.length ∧
        map_size ((AddEach fcntl u r l).1.table u) = map_size (r.table u) + l.length ∧
        ∀ j : Int, j ∈ map_keys ((AddEach fcntl u r l).1.table u)
          ↔ j ∈ map_keys (r.table u) ∨ j ∈ l.map Prod.fst := by
  induction l with
  | nil =>
    intro r _ _ _ _
    simp [AddEach]
  | cons e rest ih =>
    intro r hnd hdis hval hsize
    simp only [List.map_cons, List.nodup_cons] at hnd
    simp only [List.length_cons] at hsize
    have hf : map_size (r.table u) ≠ 1024 := by omega
    obtain ⟨hb, hadd⟩ := Add_fresh fcntl r e.1 u e.2 (hval e (List.mem_cons_self _ _)) hf
      (hdis e (List.mem_cons_self _ _))
    have hkeys := map_keys_insert e.1 e.2 (r.table u) hb
    have hlen := map_insert_length e.1 e.2 (r.table u) hb
    have hstep : AddEach fcntl u r (e :: rest)
        = ((AddEach fcntl u (r.setTable u (map_insert e.1 e.2 (r.table u)).1) rest).1,
            none :: (AddEach fcntl u (r.setTable u (map_insert e.1 e.2 (r.table u)).1) rest).2) := by
      rw [AddEach, hadd]
    have hrec := ih (r.setTable u (map_insert e.1 e.2 (r.table u)).1) hnd.2
      (by
        intro x hx
        rw [table_setTable_same, hkeys]
        intro hc
        rcases hc with hc | hc
        · exact hnd.1 (hc ▸ List.mem_map_of_mem Prod.fst hx)
        · exact hdis x (List.mem_cons_of_mem _ hx) hc)
      (fun x hx => hval x (List.mem_cons_of_mem _ hx))
      (by
        rw [table_setTable_same]
        unfold map_size at hsize ⊢
        omega)
    rw [hstep]
    rw [table_setTable_same] at hrec
    obtain ⟨h1, h2, h3, h4⟩ := hrec
    refine ⟨?_, ?_, ?_, ?_⟩
    · intro o ho
      simp only [List.mem_cons] at ho
      rcases ho with ho | ho
      · exact ho
      · exact h1 o ho
    · simp [h2]
    · rw [h3]
      unfold map_size at *
      simp only [List.length_cons]
      omega
    · intro j
      rw [h4 j, hkeys j]
      simp only [List.map_cons, List.mem_cons]
      tauto

/-- A duplicate-free list of 1024 integers of `[0, 1024)` holds each of them. -/
theorem mem_of_nodup_full (ks : List Int) (hnd : ks.Nodup) (hlen : ks.length = 1024)
    (hrange : ∀ k ∈ ks, 0 ≤ k ∧ k < 1024) (j : Int) (hj : 0 ≤ j ∧ j < 1024) : j ∈ ks := by
  have hsub : ks.toFinset ⊆ Finset.Ico (0 : Int) 1024 := by
    intro k hk
    rw [List.mem_toFinset] at hk
    rw [Finset.mem_Ico]
    exact hrange k hk
  have hcard : (Finset.Ico (0 : Int) 1024).card ≤ ks.toFinset.card := by
    rw [List.toFinset_card_of_nodup hnd, hlen, Int.card_Ico]
    simp
  have heq := Finset.eq_of_subset_of_card_le hsub hcard
  have : j ∈ ks.toFinset := by
    rw [heq, Finset.mem_Ico]
    exact hj
  exact List.mem_toFinset.mp this

/-- C4: from an empty table of one category, 1024 calls of `Add` with pairwise
distinct descriptors that pass the validity test all succeed and fill the table;
in the state reached, `Add` to that category of any descriptor that passes the
validity test throws `ExceptionFDsOverflow` (not `ExceptionRepeatingFD`) and
changes nothing, and that descriptor is already a key of the table. -/
theorem Add_limit_then_overflow (fcntl : Int → Int) (r : Reactor Cb) (usage : Usage)
    (l : List (Int × Cb)) (hempty : r.table usage = []) (hlen : l.length = 1024)
    (hnd : (l.map Prod.fst).Nodup)
    (hvalid : ∀ e ∈ l, ¬ (e.1 < 0 ∨ 1024 ≤ e.1 ∨ fcntl e.1 = -1)) :
    (AddEach fcntl usage r l).2.length = 1024 ∧
      (∀ o ∈ (AddEach fcntl usage r l).2, o = none) ∧
      map_size ((AddEach fcntl usage r l).1.table usage) = 1024 ∧
      ∀ (fd : Int) (cb : Cb), ¬ (fd < 0 ∨ 1024 ≤ fd ∨ fcntl fd = -1) →
        Add fcntl (AddEach fcntl usage r l).1 fd usage cb
            = ((AddEach fcntl usage r l).1, some Exn.ExceptionFDsOverflow) ∧
          (Add fcntl (AddEach fcntl usage r l).1 fd usage cb).2
            ≠ some Exn.ExceptionRepeatingFD ∧
          fd ∈ map_keys ((AddEach fcntl usage r l).1.table usage) := by
  obtain ⟨h1, h2, h3, h4⟩ := AddEach_fresh fcntl usage l r hnd
    (by intro e _; rw [hempty]; simp [map_keys]) hvalid
    (by rw [hempty]; simp [map_size, hlen])
  have hsz : map_size ((AddEach fcntl usage r l).1.table usage) = 1024 := by
    rw [h3, hempty, hlen]
    simp [map_size]
  refine ⟨by rw [h2, hlen], h1, hsz, ?_⟩
  intro fd cb hfd
  have hover := Add_full fcntl (AddEach fcntl usage r l).1 fd usage cb hfd hsz
  refine ⟨hover, ?_, ?_⟩
  · rw [hover]
    simp
  · rw [h4 fd]
    right
    apply mem_of_nodup_full (l.map Prod.fst) hnd (by simpa using hlen)
    · intro k hk
      rw [List.mem_map] at hk
      obtain ⟨e, he, rfl⟩ := hk
      have := hvalid e he
      omega
    · omega

theorem rangeTable_nodup (n : Nat) : ((rangeTable n).map Prod.fst).Nodup := by
  unfold rangeTable
  rw [List.map_map]
  apply List.Nodup.map _ (List.nodup_range n)
  intro a b hab
  simpa using hab

/-- Witness of C4: the descriptors `0, ..., 1023`, all open, added to the READ table
of a fresh reactor; `Add(7, READ, 0)` then throws `ExceptionFDsOverflow`. -/
theorem Add_limit_then_overflow_witness :
    (Add allOpen (AddEach allOpen Usage.READ (Reactor.new Nat) (rangeTable 1024)).1 7
        Usage.READ 0).2 = some Exn.ExceptionFDsOverflow ∧
      (7 : Int) ∈ map_keys
        ((AddEach allOpen Usage.READ (Reactor.new Nat) (rangeTable 1024)).1.table Usage.READ) :=
  have h := (Add_limit_then_overflow allOpen (Reactor.new Nat) Usage.READ (rangeTable 1024)
    rfl (rangeTable_length 1024) (rangeTable_nodup 1024)
    (by
      intro e he
      have hk := (rangeTable_keys 1024 e.1).mp (List.mem_map_of_mem Prod.fst he)
      simp only [allOpen]
      omega)).2.2.2 7 0 (by simp [allOpen])
  ⟨by rw [h.1], h.2.2⟩

end AddClaims

/-! ## Claims on `Remove` -/

section RemoveClaims

variable {Cb : Type}

theorem Remove_absent (r : Reactor Cb) (fd : Int) (u : Usage)
    (hk : fd ∉ map_keys (r.table u)) :
    Remove r fd u = (r, some Exn.ExceptionRemovingNonExistingFD) := by
  have : map_find fd (r.table u) = none := (map_find_eq_none_iff fd _).mpr hk
  simp [Remove, this]

theorem Remove_present (r : Reactor Cb) (fd : Int) (u : Usage)
    (hk : fd ∈ map_keys (r.table u)) :
    Remove r fd u = (r.setTable u (map_erase fd (r.table u)), none) := by
  have hne : map_find fd (r.table u) ≠ none := by
    rw [ne_eq, map_find_eq_none_iff]
    exact fun h => h hk
  cases hf : map_find fd (r.table u) with
  | none => exact absurd hf hne
  | some e => simp [Remove, hf]

/-- C6: `Remove(fd, usage)` throws `ExceptionRemovingNonExistingFD` if and only if
`fd` is not a key of the table of `usage`, whatever the two other tables hold;
it throws nothing else, and when it throws the three tables and the flag
`m_isRunning` are unchanged. -/
theorem Remove_unknown_iff (r : Reactor Cb) (fd : Int) (usage : Usage) :
    ((Remove r fd usage).2 = some Exn.ExceptionRemovingNonExistingFD
        ↔ fd ∉ map_keys (r.table usage)) ∧
      ((Remove r fd usage).2 = none ↔ fd ∈ map_keys (r.table usage)) ∧
      ((Remove r fd usage).2 ≠ none →
        (Remove r fd usage).1 = r ∧
          (∀ w : Usage, (Remove r fd usage).1.table w = r.table w) ∧
          (Remove r fd usage).1.m_isRunning = r.m_isRunning) := by
  by_cases hk : fd ∈ map_keys (r.table usage)
  · rw [Remove_present r fd usage hk]
    simp [hk]
  · rw [Remove_absent r fd usage hk]
    simp [hk]

/-- C7: when `fd` is registered in `usage`, `Remove(fd, usage)` succeeds; afterwards
`fd` is not a key of that table, every other descriptor of the table finds the
same entry as before, the table has one entry less, the tables of the two other
categories are unchanged (a registration of `fd` there included) and so is the
flag `m_isRunning`. -/
theorem Remove_success_frame (r : Reactor Cb) (fd : Int) (usage : Usage)
    (ho : map_ordered (r.table usage)) (hk : fd ∈ map_keys (r.table usage)) :
    (Remove r fd usage).2 = none ∧
      fd ∉ map_keys ((Remove r fd usage).1.table usage) ∧
      (∀ j : Int, j ≠ fd →
        map_find j ((Remove r fd usage).1.table usage) = map_find j (r.table usage)) ∧
      map_size ((Remove r fd usage).1.table usage) + 1 = map_size (r.table usage) ∧
      map_ordered ((Remove r fd usage).1.table usage) ∧
      (∀ w : Usage, w ≠ usage → (Remove r fd usage).1.table w = r.table w) ∧
      (Remove r fd usage).1.m_isRunning = r.m_isRunning := by
  rw [Remove_present r fd usage hk]
  refine ⟨rfl, ?_, ?_, ?_, ?_, ?_, ?_⟩
  · show fd ∉ map_keys ((r.setTable usage (map_erase fd (r.table usage))).table usage)
    rw [table_setTable_same]
    exact map_erase_not_mem fd _ ho
  · intro j hj
    show map_find j ((r.setTable usage (map_erase fd (r.table usage))).table usage) = _
    rw [table_setTable_same]
    exact map_find_erase_other fd _ j hj
  · show map_size ((r.setTable usage (map_erase fd (r.table usage))).table usage) + 1 = _
    rw [table_setTable_same]
    exact map_erase_length fd _ hk
  · show map_ordered ((r.setTable usage (map_erase fd (r.table usage))).table usage)
    rw [table_setTable_same]
    exact map_ordered_erase fd _ ho
  · intro w hw
    exact table_setTable_other r usage w _ hw
  · exact isRunning_setTable r usage _

/-- Witness of C7: removing descriptor 3 from the READ table of the sample reactor
leaves its EXCEPT registration of descriptor 3 in place. -/
theorem Remove_success_frame_witness :
    (Remove sampleReactor 3 Usage.READ).2 = none ∧
      (3 : Int) ∉ map_keys ((Remove sampleReactor 3 Usage.READ).1.table Usage.READ) ∧
      (Remove sampleReactor 3 Usage.READ).1.table Usage.EXCEPT = [(3, 7)] :=
  ⟨(Remove_success_frame sampleReactor 3 Usage.READ (by decide) (by decide)).1,
    (Remove_success_frame sampleReactor 3 Usage.READ (by decide) (by decide)).2.1,
    by decide⟩

/-- C8: when `d` is registered in `c` and still passes the validity test of `Add`
(in range and open), `Remove(d, c)` succeeds and the `Add(d, c, cb)` called
right after it succeeds too, leaving `d` registered in `c` with the callback
`cb`.  The table is a `std::map` (keys ascending) of at most 1024 entries. -/
theorem Remove_then_Add (fcntl : Int → Int) (r : Reactor Cb) (d : Int) (c : Usage) (cb : Cb)
    (ho : map_ordered (r.table c)) (hsize : map_size (r.table c) ≤ 1024)
    (hk : d ∈ map_keys (r.table c)) (hopen : ¬ (d < 0 ∨ 1024 ≤ d ∨ fcntl d = -1)) :
    (Remove r d c).2 = none ∧
      (Add fcntl (Remove r d c).1 d c cb).2 = none ∧
      map_find d ((Add fcntl (Remove r d c).1 d c cb).1.table c) = some (d, cb) := by
  have hrem := Remove_present r d c hk
  have htab : (Remove r d c).1.table c = map_erase d (r.table c) := by
    rw [hrem]
    exact table_setTable_same r c _
  have hgone : d ∉ map_keys ((Remove r d c).1.table c) := by
    rw [htab]
    exact map_erase_not_mem d _ ho
  have hf : map_size ((Remove r d c).1.table c) ≠ 1024 := by
    rw [htab]
    have := map_erase_length d (r.table c) hk
    unfold map_size at hsize ⊢
    omega
  obtain ⟨hb, hadd⟩ := Add_fresh fcntl (Remove r d c).1 d c cb hopen hf hgone
  refine ⟨by rw [hrem], ?_, ?_⟩
  · rw [hadd]
  · rw [hadd, table_setTable_same]
    exact map_find_insert_self d cb _ hb

/-- Witness of C8: descriptor 3 removed from the READ table of the sample reactor and
registered again with callback 42. -/
theorem Remove_then_Add_witness :
    (Remove sampleReactor 3 Usage.READ).2 = none ∧
      (Add allOpen (Remove sampleReactor 3 Usage.READ).1 3 Usage.READ 42).2 = none ∧
      map_find 3 ((Add allOpen (Remove sampleReactor 3 Usage.READ).1 3 Usage.READ 42).1.table
        Usage.READ) = some (3, 42) :=
  Remove_then_Add allOpen sampleReactor 3 Usage.READ 42 (by decide) (by decide) (by decide)
    (by decide)

end RemoveClaims

/-! ## Claims on `Run` -/

section RunLemmas

variable {Cb : Type}

theorem Add_isRunning (fcntl : Int → Int) (r : Reactor Cb) (fd : Int) (u : Usage) (cb : Cb) :
    (Add fcntl r fd u cb).1.m_isRunning = r.m_isRunning := by
  by_cases hi : fd < 0 ∨ 1024 ≤ fd ∨ fcntl fd = -1
  · rw [Add_invalid fcntl r fd u cb hi]
  · by_cases hf : map_size (r.table u) = 1024
    · rw [Add_full fcntl r fd u cb hi hf]
    · rw [Add_insert fcntl r fd u cb hi hf]
      exact isRunning_setTable r u _

theorem Remove_isRunning (r : Reactor Cb) (fd : Int) (u : Usage) :
    (Remove r fd u).1.m_isRunning = r.m_isRunning := by
  by_cases hk : fd ∈ map_keys (r.table u)
  · rw [Remove_present r fd u hk]
    exact isRunning_setTable r u _
  · rw [Remove_absent r fd u hk]

/-- Once the flag is cleared, a callback that returns leaves it cleared: `Add` and
`Remove` do not touch it and a further `Stop` fails its assertion. -/
theorem runCallback_flag_false (fcntl : Int → Int) (p : Prog Cb) :
    ∀ r : Reactor Cb, r.m_isRunning = false →
      (runCallback fcntl p r).exit = CbExit.returned →
      (runCallback fcntl p r).state.m_isRunning = false := by
  induction p with
  | ret => intro r hr _; simpa [runCallback] using hr
  | raise e => intro r _ he; simp [runCallback] at he
  | Add fd u cb k ih =>
    intro r hr he
    simp only [runCallback] at he ⊢
    exact ih _ _ (by rw [Add_isRunning]; exact hr) he
  | Remove fd u k ih =>
    intro r hr he
    simp only [runCallback] at he ⊢
    exact ih _ _ (by rw [Remove_isRunning]; exact hr) he
  | Stop k _ =>
    intro r hr he
    simp [runCallback, Stop, hr] at he

/-- A callback that called `Stop` and returned leaves the flag cleared. -/
theorem runCallback_Stop_clears (fcntl : Int → Int) (p : Prog Cb) :
    ∀ r : Reactor Cb, (runCallback fcntl p r).exit = CbExit.returned →
      Call.Stop ∈ (runCallback fcntl p r).log →
      (runCallback fcntl p r).state.m_isRunning = false := by
  induction p with
  | ret => intro r _ hl; simp [runCallback] at hl
  | raise e => intro r he _; simp [runCallback] at he
  | Add fd u cb k ih =>
    intro r he hl
    simp only [runCallback, List.mem_cons] at he hl ⊢
    rcases hl with hl | hl
    · exact absurd hl (by simp)
    · exact ih _ _ he hl
  | Remove fd u k ih =>
    intro r he hl
    simp only [runCallback, List.mem_cons] at he hl ⊢
    rcases hl with hl | hl
    · exact absurd hl (by simp)
    · exact ih _ _ he hl
  | Stop k _ =>
    intro r he _
    cases hr : r.m_isRunning
    · simp [runCallback, Stop, hr] at he
    · simp only [runCallback, Stop, hr, if_true] at he ⊢
      exact runCallback_flag_false fcntl k _ rfl he

theorem RunLoop_stopped (fcntl : Int → Int) (body : Nat → Cb → Int → Prog Cb)
    (fuel wake : Nat) (r : Reactor Cb) (answers : List SelectReturn)
    (h : r.m_isRunning = false) :
    RunLoop fcntl body fuel wake r answers
      = { exit := RunExit.returned Status.STOP_CALLED, state := r, rest := answers,
          trace := [] } := by
  unfold RunLoop
  simp [h]

theorem RunLoop_empty (fcntl : Int → Int) (body : Nat → Cb → Int → Prog Cb)
    (fuel wake : Nat) (r : Reactor Cb) (answers : List SelectReturn)
    (h : r.m_isRunning = true) (he : emptyMaps r = USAGE_COUNT) :
    RunLoop fcntl body fuel wake r answers
      = { exit := RunExit.returned Status.EMPTY, state := r, rest := answers,
          trace := [] } := by
  unfold RunLoop
  simp [h, he]

theorem emptyMaps_of_empty (r : Reactor Cb) (h : ∀ u : Usage, r.table u = []) :
    emptyMaps r = USAGE_COUNT := by
  simp [emptyMaps, usages, h, map_size, USAGE_COUNT]

theorem RunLoop_round (fcntl : Int → Int) (body : Nat → Cb → Int → Prog Cb)
    (fuel wake : Nat) (r : Reactor Cb) (answers : List SelectReturn)
    (h : r.m_isRunning = true) (he : emptyMaps r ≠ USAGE_COUNT) :
    RunLoop fcntl body (fuel + 1) wake r answers
      = match (RunRound fcntl body wake r answers).exit with
        | RoundExit.blocked =>
          { exit := RunExit.blocked, state := (RunRound fcntl body wake r answers).state,
            rest := (RunRound fcntl body wake r answers).rest,
            trace := (RunRound fcntl body wake r answers).trace }
        | RoundExit.aborted =>
          { exit := RunExit.aborted, state := (RunRound fcntl body wake r answers).state,
            rest := (RunRound fcntl body wake r answers).rest,
            trace := (RunRound fcntl body wake r answers).trace }
        | RoundExit.threw e =>
          { exit := RunExit.threw e, state := (RunRound fcntl body wake r answers).state,
            rest := (RunRound fcntl body wake r answers).rest,
            trace := (RunRound fcntl body wake r answers).trace }
        | RoundExit.next =>
          { RunLoop fcntl body fuel (wake + 1) (RunRound fcntl body wake r answers).state
              (RunRound fcntl body wake r answers).rest with
            trace := (RunRound fcntl body wake r answers).trace ++
              (RunLoop fcntl body fuel (wake + 1) (RunRound fcntl body wake r answers).state
                (RunRound fcntl body wake r answers).rest).trace } := by
  have he2 : ¬ USAGE_COUNT = emptyMaps r := fun hc => he hc.symm
  rw [RunLoop.eq_def]
  simp only [h, he2, beq_iff_eq, if_false, Bool.true_eq_false]

/-- The record of a round: the `select` calls of `SelectFuncIMP`, followed by at most
one callback call, which decides how the round ends. -/
theorem RunRound_trace (fcntl : Int → Int) (body : Nat → Cb → Int → Prog Cb)
    (wake : Nat) (r : Reactor Cb) (answers : List SelectReturn) :
    ∃ calls : List (fd_set × fd_set × fd_set),
      (RunRound fcntl body wake r answers).trace = selectEvents Cb calls ∨
      ∃ (i : Usage) (fd : Int) (cb : Cb),
        (RunRound fcntl body wake r answers).trace
            = selectEvents Cb calls ++
              [Event.callback i fd cb (runCallback fcntl (body wake cb fd) r).log
                (runCallback fcntl (body wake cb fd) r).exit] ∧
          (RunRound fcntl body wake r answers).exit
            = RoundExit.ofCallback (runCallback fcntl (body wake cb fd) r).exit ∧
          (RunRound fcntl body wake r answers).state
            = (runCallback fcntl (body wake cb fd) r).state := by
  refine ⟨(SelectFuncIMP answers (init_fd_status r)).calls, ?_⟩
  simp only [RunRound]
  split
  · exact Or.inl rfl
  · exact Or.inl rfl
  · split
    · exact Or.inl rfl
    · rename_i i fd cb _
      exact Or.inr ⟨i, fd, cb, rfl, rfl, rfl⟩

theorem selectEvents_split (calls : List (fd_set × fd_set × fd_set))
    (rest pre suf : List (Event Cb)) (x : Event Cb)
    (hx : ∀ a b c, x ≠ Event.select a b c)
    (h : selectEvents Cb calls ++ rest = pre ++ x :: suf) :
    ∃ mid, pre = selectEvents Cb calls ++ mid ∧ rest = mid ++ x :: suf := by
  induction calls generalizing pre with
  | nil => exact ⟨pre, by simp [selectEvents], by simpa [selectEvents] using h⟩
  | cons c cs ih =>
    cases pre with
    | nil =>
      simp only [selectEvents, List.map_cons, List.cons_append, List.nil_append,
        List.cons.injEq] at h
      exact absurd h.1.symm (hx _ _ _)
    | cons p pre1 =>
      simp only [selectEvents, List.map_cons, List.cons_append, List.cons.injEq] at h
      obtain ⟨mid, h1, h2⟩ := ih pre1 h.2
      refine ⟨mid, ?_, h2⟩
      simp only [selectEvents, List.map_cons, List.cons_append, List.cons.injEq]
      exact ⟨h.1.symm, h1⟩

/-- Where a callback that called `Stop` and returned can stand in the record of a
round followed by later events: at the end of the round, which then goes on
with the flag cleared, or among the later events. -/
theorem RunRound_after_Stop (fcntl : Int → Int) (body : Nat → Cb → Int → Prog Cb)
    (wake : Nat) (r : Reactor Cb) (answers : List SelectReturn)
    (i : Usage) (fd : Int) (cb : Cb) (calls : List (Call Cb)) (later pre suf : List (Event Cb))
    (hstop : Call.Stop ∈ calls)
    (h : (RunRound fcntl body wake r answers).trace ++ later
      = pre ++ Event.callback i fd cb calls CbExit.returned :: suf) :
    ((RunRound fcntl body wake r answers).exit = RoundExit.next ∧
        (RunRound fcntl body wake r answers).state.m_isRunning = false ∧ suf = later) ∨
      ∃ mid, later = mid ++ Event.callback i fd cb calls CbExit.returned :: suf := by
  have hx : ∀ a b c, Event.callback i fd cb calls CbExit.returned ≠ Event.select a b c := by
    intro a b c hc
    cases hc
  obtain ⟨sc, hround | ⟨i1, fd1, cb1, htr, hexit, hstate⟩⟩ := RunRound_trace fcntl body wake r answers
  · rw [hround] at h
    obtain ⟨mid, _, h2⟩ := selectEvents_split sc later pre suf _ hx h
    exact Or.inr ⟨mid, h2⟩
  · rw [htr, List.append_assoc] at h
    obtain ⟨mid, _, h2⟩ := selectEvents_split sc _ pre suf _ hx h
    cases mid with
    | nil =>
      simp only [List.singleton_append, List.nil_append, List.cons.injEq,
        Event.callback.injEq] at h2
      obtain ⟨⟨_, _, _, hlog, hret⟩, hsuf⟩ := h2
      left
      refine ⟨?_, ?_, hsuf.symm⟩
      · rw [hexit, hret]
        rfl
      · rw [hstate]
        exact runCallback_Stop_clears fcntl _ r hret (hlog ▸ hstop)
    | cons m mid1 =>
      simp only [List.singleton_append, List.cons_append, List.cons.injEq] at h2
      exact Or.inr ⟨mid1, h2.2⟩

/-- In the record of the loop, a callback that called `Stop` and returned is the last
event, and the loop ended by `return STOP_CALLED` with the flag cleared. -/
theorem RunLoop_after_Stop (fcntl : Int → Int) (body : Nat → Cb → Int → Prog Cb)
    (i : Usage) (fd : Int) (cb : Cb) (calls : List (Call Cb)) (suf : List (Event Cb))
    (hstop : Call.Stop ∈ calls) :
    ∀ (fuel wake : Nat) (r : Reactor Cb) (answers : List SelectReturn) (pre : List (Event Cb)),
      (RunLoop fcntl body fuel wake r answers).trace
          = pre ++ Event.callback i fd cb calls CbExit.returned :: suf →
        (RunLoop fcntl body fuel wake r answers).exit = RunExit.returned Status.STOP_CALLED ∧
          suf = [] ∧
          (RunLoop fcntl body fuel wake r answers).state.m_isRunning = false := by
  intro fuel
  induction fuel with
  | zero =>
    intro wake r answers pre htr
    exfalso
    unfold RunLoop at htr
    split_ifs at htr <;> simp at htr
  | succ n ih =>
    intro wake r answers pre htr
    by_cases hflag : r.m_isRunning = false
    · rw [RunLoop_stopped fcntl body _ wake r answers hflag] at htr
      simp at htr
    · have hflag1 : r.m_isRunning = true := by simpa using hflag
      by_cases hem : emptyMaps r = USAGE_COUNT
      · rw [RunLoop_empty fcntl body _ wake r answers hflag1 hem] at htr
        simp at htr
      · rw [RunLoop_round fcntl body n wake r answers hflag1 hem] at htr ⊢
        cases hexit : (RunRound fcntl body wake r answers).exit with
        | next =>
          rw [hexit] at htr
          simp only at htr ⊢
          rcases RunRound_after_Stop fcntl body wake r answers i fd cb calls _ pre suf hstop htr
            with ⟨_, hfl, hsuf⟩ | ⟨mid, hmid⟩
          · rw [RunLoop_stopped fcntl body n (wake + 1) _ _ hfl] at hsuf ⊢
            exact ⟨rfl, hsuf, hfl⟩
          · exact ih (wake + 1) _ _ mid hmid
        | threw e =>
          rw [hexit] at htr
          simp only at htr
          rw [← List.append_nil (RunRound fcntl body wake r answers).trace] at htr
          rcases RunRound_after_Stop fcntl body wake r answers i fd cb calls _ pre suf hstop htr
            with ⟨hn, _, _⟩ | ⟨mid, hmid⟩
          · rw [hexit] at hn
            cases hn
          · simp at hmid
        | aborted =>
          rw [hexit] at htr
          simp only at htr
          rw [← List.append_nil (RunRound fcntl body wake r answers).trace] at htr
          rcases RunRound_after_Stop fcntl body wake r answers i fd cb calls _ pre suf hstop htr
            with ⟨hn, _, _⟩ | ⟨mid, hmid⟩
          · rw [hexit] at hn
            cases hn
          · simp at hmid
        | blocked =>
          rw [hexit] at htr
          simp only at htr
          rw [← List.append_nil (RunRound fcntl body wake r answers).trace] at htr
          rcases RunRound_after_Stop fcntl body wake r answers i fd cb calls _ pre suf hstop htr
            with ⟨hn, _, _⟩ | ⟨mid, hmid⟩
          · rw [hexit] at hn
            cases hn
          · simp at hmid

theorem Run_trace (fcntl : Int → Int) (body : Nat → Cb → Int → Prog Cb) (fuel : Nat)
    (r : Reactor Cb) (answers : List SelectReturn) :
    (Run fcntl body fuel r answers).trace
      = (RunLoop fcntl body fuel 0 { r with m_isRunning := true } answers).trace := by
  unfold Run
  simp only
  split <;> rfl

theorem Run_exit (fcntl : Int → Int) (body : Nat → Cb → Int → Prog Cb) (fuel : Nat)
    (r : Reactor Cb) (answers : List SelectReturn) :
    (Run fcntl body fuel r answers).exit
      = (RunLoop fcntl body fuel 0 { r with m_isRunning := true } answers).exit := by
  unfold Run
  simp only
  split <;> rfl

/-- When `Run` returns or lets an exception out, the flag is cleared. -/
theorem Run_flag_of_return (fcntl : Int → Int) (body : Nat → Cb → Int → Prog Cb) (fuel : Nat)
    (r : Reactor Cb) (answers : List SelectReturn) (s : Status)
    (h : (Run fcntl body fuel r answers).exit = RunExit.returned s) :
    (Run fcntl body fuel r answers).state.m_isRunning = false := by
  rw [Run_exit] at h
  unfold Run
  simp only [h]
  rfl

end RunLemmas

section RunClaims

variable {Cb : Type}

/-- C9: on a reactor whose three tables are empty `Run` returns `EMPTY` for every
bound on the rounds, without any `select` call and without calling a callback
(no answer of the operating system is consumed); on return the flag is
cleared and the three tables are still empty. -/
theorem Run_empty (fcntl : Int → Int) (body : Nat → Cb → Int → Prog Cb) (fuel : Nat)
    (r : Reactor Cb) (answers : List SelectReturn) (h : ∀ u : Usage, r.table u = []) :
    (Run fcntl body fuel r answers).exit = RunExit.returned Status.EMPTY ∧
      (Run fcntl body fuel r answers).trace = [] ∧
      (Run fcntl body fuel r answers).rest = answers ∧
      (Run fcntl body fuel r answers).state.m_isRunning = false ∧
      ∀ u : Usage, (Run fcntl body fuel r answers).state.table u = [] := by
  have hloop := RunLoop_empty fcntl body fuel 0 { r with m_isRunning := true } answers rfl
    (emptyMaps_of_empty _ (by
      intro u
      cases u
      · exact h Usage.EXCEPT
      · exact h Usage.READ
      · exact h Usage.WRITE))
  unfold Run
  rw [hloop]
  refine ⟨rfl, rfl, rfl, rfl, ?_⟩
  intro u
  cases u
  · exact h Usage.EXCEPT
  · exact h Usage.READ
  · exact h Usage.WRITE

/-- Witness of C9: `Run` on a freshly constructed reactor, even with no round allowed
and with a pending answer of `select`. -/
theorem Run_empty_witness :
    (Run allOpen stopBody 0 (Reactor.new Nat) [SelectReturn.ready [3] [] []]).exit
        = RunExit.returned Status.EMPTY ∧
      (Run allOpen stopBody 0 (Reactor.new Nat) [SelectReturn.ready [3] [] []]).trace = [] :=
  ⟨(Run_empty allOpen stopBody 0 (Reactor.new Nat) [SelectReturn.ready [3] [] []]
      (by intro u; cases u <;> rfl)).1,
    (Run_empty allOpen stopBody 0 (Reactor.new Nat) [SelectReturn.ready [3] [] []]
      (by intro u; cases u <;> rfl)).2.1⟩

/-- C10: when a callback called by `Run` calls `Stop` and returns, this call is the
last thing `Run` does: no `select` call and no callback call follow it, and
`Run` returns `STOP_CALLED` with the flag cleared, whatever the callback left
in the tables (all three empty included). -/
theorem Run_returns_after_Stop (fcntl : Int → Int) (body : Nat → Cb → Int → Prog Cb)
    (fuel : Nat) (r : Reactor Cb) (answers : List SelectReturn) (pre suf : List (Event Cb))
    (usage : Usage) (fd : Int) (cb : Cb) (calls : List (Call Cb))
    (htrace : (Run fcntl body fuel r answers).trace
      = pre ++ Event.callback usage fd cb calls CbExit.returned :: suf)
    (hstop : Call.Stop ∈ calls) :
    (Run fcntl body fuel r answers).exit = RunExit.returned Status.STOP_CALLED ∧
      suf = [] ∧
      (Run fcntl body fuel r answers).state.m_isRunning = false := by
  rw [Run_trace] at htrace
  obtain ⟨h1, h2, _⟩ := RunLoop_after_Stop fcntl body usage fd cb calls suf hstop fuel 0 _
    answers pre htrace
  have hexit : (Run fcntl body fuel r answers).exit = RunExit.returned Status.STOP_CALLED := by
    rw [Run_exit]
    exact h1
  exact ⟨hexit, h2, Run_flag_of_return fcntl body fuel r answers _ hexit⟩

/-- Witness of C10: the only registration is descriptor 3 for READ; its callback
removes it and calls `Stop`.  `Run` returns `STOP_CALLED`, not `EMPTY`, although
the three tables are empty by then. -/
theorem Run_returns_after_Stop_witness :
    (Run allOpen stopBody 1 loneReactor [SelectReturn.ready [3] [] []]).exit
        = RunExit.returned Status.STOP_CALLED ∧
      (Run allOpen stopBody 1 loneReactor [SelectReturn.ready [3] [] []]).state
        = Reactor.new Nat :=
  ⟨(Run_returns_after_Stop allOpen stopBody 1 loneReactor [SelectReturn.ready [3] [] []]
      [Event.select [3] [] []] [] Usage.READ 3 11 [Call.Remove 3 Usage.READ, Call.Stop]
      (by decide) (by decide)).1,
    by decide⟩

end RunClaims

/-! ## One callback per round -/

section RoundClaims

variable {Cb : Type}

theorem callbackCount_append (a b : List (Event Cb)) :
    callbackCount (a ++ b) = callbackCount a + callbackCount b := by
  simp [callbackCount]

end RoundClaims

/-! ## The flag after `Run`, `Stop`, and the failures of `select` -/

section ExitClaims

variable {Cb : Type}

theorem Run_flag_of_throw (fcntl : Int → Int) (body : Nat → Cb → Int → Prog Cb) (fuel : Nat)
    (r : Reactor Cb) (answers : List SelectReturn) (e : Exn)
    (h : (Run fcntl body fuel r answers).exit = RunExit.threw e) :
    (Run fcntl body fuel r answers).state.m_isRunning = false := by
  rw [Run_exit] at h
  unfold Run
  simp only [h]
  rfl

/-- C12: on every exit of `Run`, by `return` (of `EMPTY` or of `STOP_CALLED`) or by an
exception that propagates out of it (thrown by `SelectFuncIMP` or escaped from
a callback), the flag `m_isRunning` is cleared, whatever the initial state, the
callbacks and the answers of `select`. -/
theorem Run_clears_flag (fcntl : Int → Int) (body : Nat → Cb → Int → Prog Cb) (fuel : Nat)
    (r : Reactor Cb) (answers : List SelectReturn) :
    (∀ s : Status, (Run fcntl body fuel r answers).exit = RunExit.returned s →
        (Run fcntl body fuel r answers).state.m_isRunning = false) ∧
      (∀ e : Exn, (Run fcntl body fuel r answers).exit = RunExit.threw e →
        (Run fcntl body fuel r answers).state.m_isRunning = false) :=
  ⟨fun s h => Run_flag_of_return fcntl body fuel r answers s h,
    fun e h => Run_flag_of_throw fcntl body fuel r answers e h⟩

/-- Witness of C12: the three exits on concrete runs, a return of `EMPTY`, a return
of `STOP_CALLED` and the exception thrown by `SelectFuncIMP` on `EAGAIN`. -/
theorem Run_clears_flag_witness :
    (Run allOpen stopBody 1 (Reactor.new Nat) []).state.m_isRunning = false ∧
      (Run allOpen stopBody 1 loneReactor [SelectReturn.ready [3] [] []]).state.m_isRunning
        = false ∧
      (Run allOpen stopBody 1 loneReactor [SelectReturn.error Errno.EAGAIN]).state.m_isRunning
        = false :=
  ⟨(Run_clears_flag allOpen stopBody 1 (Reactor.new Nat) []).1 Status.EMPTY (by decide),
    (Run_clears_flag allOpen stopBody 1 loneReactor [SelectReturn.ready [3] [] []]).1
      Status.STOP_CALLED (by decide),
    (Run_clears_flag allOpen stopBody 1 loneReactor [SelectReturn.error Errno.EAGAIN]).2
      Exn.std_runtime_error (by decide)⟩

theorem FdStatus_eta (sets : FdStatus) :
    ({ at_READ := sets.get Usage.READ, at_WRITE := sets.get Usage.WRITE,
       at_EXCEPT := sets.get Usage.EXCEPT } : FdStatus) = sets := by
  cases sets
  rfl

/-- A failed `select` whose `errno` is none of the three `case` labels of the `switch`
falls out of it: `SelectFuncIMP` returns, the sets as they were. -/
theorem SelectFuncIMP_unhandled (errno : Errno) (rest : List SelectReturn) (sets : FdStatus)
    (h1 : errno ≠ Errno.EINTR) (h2 : errno ≠ Errno.EAGAIN) (h3 : errno ≠ Errno.EBADF) :
    SelectFuncIMP (SelectReturn.error errno :: rest) sets
      = { exit := SelectExit.returned, sets := sets, rest := rest,
          calls := [(sets.get Usage.READ, sets.get Usage.WRITE, sets.get Usage.EXCEPT)] } := by
  cases errno
  · exact absurd rfl h1
  · exact absurd rfl h2
  · exact absurd rfl h3
  · simp [SelectFuncIMP, select, FdStatus_eta]
  · simp [SelectFuncIMP, select, FdStatus_eta]

/-- C13 (the code at the failing input): `select` fails with `ENOMEM`; `SelectFuncIMP`
returns instead of throwing, and `Run` goes on to scan the READ table against
the set it built itself and calls the callback of descriptor 3. -/
theorem Run_ENOMEM_calls_callback :
    (SelectFuncIMP [SelectReturn.error Errno.ENOMEM] (init_fd_status loneReactor)).exit
        = SelectExit.returned ∧
      (Run allOpen stopBody 1 loneReactor [SelectReturn.error Errno.ENOMEM]).trace
        = [Event.select [3] [] [],
            Event.callback Usage.READ 3 11 [Call.Remove 3 Usage.READ, Call.Stop]
              CbExit.returned] ∧
      (Run allOpen stopBody 1 loneReactor [SelectReturn.error Errno.ENOMEM]).exit
        = RunExit.returned Status.STOP_CALLED := by
  decide

/-- C15: `Stop` called with the flag set clears the flag and leaves the three tables
as they were; called with the flag cleared it fails `assert(m_isRunning)`: it
neither returns nor throws, and a callback making that call ends aborted. -/
theorem Stop_contract (r : Reactor Cb) :
    (r.m_isRunning = true →
        Stop r = some { r with m_isRunning := false } ∧
          ∀ r1 : Reactor Cb, Stop r = some r1 →
            r1.m_isRunning = false ∧ ∀ u : Usage, r1.table u = r.table u) ∧
      (r.m_isRunning = false →
        Stop r = none ∧
          ∀ (fcntl : Int → Int) (k : Prog Cb),
            (runCallback fcntl (Prog.Stop k) r).exit = CbExit.aborted ∧
              (runCallback fcntl (Prog.Stop k) r).state = r) := by
  constructor
  · intro h
    have hs : Stop r = some { r with m_isRunning := false } := by simp [Stop, h]
    refine ⟨hs, ?_⟩
    intro r1 h1
    rw [hs] at h1
    cases h1
    refine ⟨rfl, ?_⟩
    intro u
    cases u <;> rfl
  · intro h
    have hs : Stop r = none := by simp [Stop, h]
    refine ⟨hs, ?_⟩
    intro fcntl k
    simp [runCallback, hs]

end ExitClaims

/-! ## Interrupted waits -/

section InterruptClaims

variable {Cb : Type}

theorem SelectFuncIMP_EINTR (rest : List SelectReturn) (sets : FdStatus) :
    SelectFuncIMP (SelectReturn.error Errno.EINTR :: rest) sets
      = { SelectFuncIMP rest sets with
          calls := (sets.get Usage.READ, sets.get Usage.WRITE, sets.get Usage.EXCEPT) ::
            (SelectFuncIMP rest sets).calls } := by
  rw [SelectFuncIMP]
  simp [select, FdStatus_eta]

theorem SelectFuncIMP_replicate_EINTR (k : Nat) (rest : List SelectReturn) (sets : FdStatus) :
    SelectFuncIMP (List.replicate k (SelectReturn.error Errno.EINTR) ++ rest) sets
      = { SelectFuncIMP rest sets with
          calls := List.replicate k
              (sets.get Usage.READ, sets.get Usage.WRITE, sets.get Usage.EXCEPT) ++
            (SelectFuncIMP rest sets).calls } := by
  induction k with
  | zero => simp
  | succ n ih =>
    rw [List.replicate_succ, List.cons_append, SelectFuncIMP_EINTR, ih]
    simp [List.replicate_succ]

theorem callbackCount_replicate_select (k : Nat) (a b c : fd_set) :
    callbackCount (List.replicate k (Event.select a b c : Event Cb)) = 0 := by
  induction k with
  | zero => rfl
  | succ n ih =>
    simp only [callbackCount] at ih ⊢
    simp only [List.replicate_succ, List.filter_cons, Event.isCallback]
    simpa using ih

/-- C18: `k` interrupted attempts (`EINTR`) before a final answer `o` of `select` do
not show in the result of `SelectFuncIMP`: it ends the same way, with the same
sets and the same answers left as for `o` alone; all it adds is `k` more
`select` calls, each with the three sets it was given.  One round of `Run`
likewise ends the same way in the same state and calls the same callback, if
any: the interruptions raise no error and call no callback. -/
theorem SelectFuncIMP_interrupted (k : Nat) (o : SelectReturn) (rest : List SelectReturn)
    (sets : FdStatus) (fcntl : Int → Int) (body : Nat → Cb → Int → Prog Cb) (wake : Nat)
    (r : Reactor Cb) :
    (SelectFuncIMP (List.replicate k (SelectReturn.error Errno.EINTR) ++ o :: rest) sets).exit
        = (SelectFuncIMP (o :: rest) sets).exit ∧
      (SelectFuncIMP (List.replicate k (SelectReturn.error Errno.EINTR) ++ o :: rest) sets).sets
        = (SelectFuncIMP (o :: rest) sets).sets ∧
      (SelectFuncIMP (List.replicate k (SelectReturn.error Errno.EINTR) ++ o :: rest) sets).rest
        = (SelectFuncIMP (o :: rest) sets).rest ∧
      (SelectFuncIMP (List.replicate k (SelectReturn.error Errno.EINTR) ++ o :: rest) sets).calls
        = List.replicate k (sets.get Usage.READ, sets.get Usage.WRITE, sets.get Usage.EXCEPT)
          ++ (SelectFuncIMP (o :: rest) sets).calls ∧
      (RunRound fcntl body wake r
          (List.replicate k (SelectReturn.error Errno.EINTR) ++ o :: rest)).exit
        = (RunRound fcntl body wake r (o :: rest)).exit ∧
      (RunRound fcntl body wake r
          (List.replicate k (SelectReturn.error Errno.EINTR) ++ o :: rest)).state
        = (RunRound fcntl body wake r (o :: rest)).state ∧
      (RunRound fcntl body wake r
          (List.replicate k (SelectReturn.error Errno.EINTR) ++ o :: rest)).rest
        = (RunRound fcntl body wake r (o :: rest)).rest ∧
      (RunRound fcntl body wake r
          (List.replicate k (SelectReturn.error Errno.EINTR) ++ o :: rest)).trace
        = List.replicate k
            (Event.select (init_fd_set (r.table Usage.READ)) (init_fd_set (r.table Usage.WRITE))
              (init_fd_set (r.table Usage.EXCEPT)))
          ++ (RunRound fcntl body wake r (o :: rest)).trace ∧
      callbackCount (RunRound fcntl body wake r
          (List.replicate k (SelectReturn.error Errno.EINTR) ++ o :: rest)).trace
        = callbackCount (RunRound fcntl body wake r (o :: rest)).trace := by
  have hsel := SelectFuncIMP_replicate_EINTR k (o :: rest) sets
  have hsel2 := SelectFuncIMP_replicate_EINTR k (o :: rest) (init_fd_status r)
  have hev : ∀ (cs : List (fd_set × fd_set × fd_set)),
      selectEvents Cb (List.replicate k ((init_fd_status r).get Usage.READ,
          (init_fd_status r).get Usage.WRITE, (init_fd_status r).get Usage.EXCEPT) ++ cs)
        = List.replicate k
            (Event.select (init_fd_set (r.table Usage.READ)) (init_fd_set (r.table Usage.WRITE))
              (init_fd_set (r.table Usage.EXCEPT))) ++ selectEvents Cb cs := by
    intro cs
    simp [selectEvents, init_fd_status, FdStatus.get]
  have htrace : (RunRound fcntl body wake r
          (List.replicate k (SelectReturn.error Errno.EINTR) ++ o :: rest)).trace
        = List.replicate k
            (Event.select (init_fd_set (r.table Usage.READ)) (init_fd_set (r.table Usage.WRITE))
              (init_fd_set (r.table Usage.EXCEPT)))
          ++ (RunRound fcntl body wake r (o :: rest)).trace := by
    simp only [RunRound, hsel2]
    split
    · simp only [hev]
    · simp only [hev]
    · split
      · simp only [hev]
      · simp only [hev, List.append_assoc]
  refine ⟨by rw [hsel], by rw [hsel], by rw [hsel], by rw [hsel], ?_, ?_, ?_, htrace, ?_⟩
  · simp only [RunRound, hsel2]
    split
    · rfl
    · rfl
    · split <;> rfl
  · simp only [RunRound, hsel2]
    split
    · rfl
    · rfl
    · split <;> rfl
  · simp only [RunRound, hsel2]
    split
    · rfl
    · rfl
    · split <;> rfl
  · rw [htrace, callbackCount_append]
    rw [callbackCount_replicate_select]
    omega

end InterruptClaims

/-! ## What `Run` returns -/

section ReturnClaims

variable {Cb : Type}

/-- A callback that makes no `Stop` call leaves the flag as it found it. -/
theorem runCallback_flag_kept (fcntl : Int → Int) (p : Prog Cb) :
    ∀ r : Reactor Cb, Call.Stop ∉ (runCallback fcntl p r).log →
      (runCallback fcntl p r).state.m_isRunning = r.m_isRunning := by
  induction p with
  | ret => intro r _; rfl
  | raise e => intro r _; rfl
  | Add fd u cb k ih =>
    intro r hl
    simp only [runCallback, List.mem_cons, not_or] at hl ⊢
    rw [ih _ _ hl.2, Add_isRunning]
  | Remove fd u k ih =>
    intro r hl
    simp only [runCallback, List.mem_cons, not_or] at hl ⊢
    rw [ih _ _ hl.2, Remove_isRunning]
  | Stop k _ =>
    intro r hl
    exfalso
    apply hl
    simp only [runCallback]
    cases Stop r <;> simp

/-- The two shapes of a round: no callback called and the state untouched, or the
callback of the element found by the scan called after the `select` calls. -/
theorem RunRound_shape (fcntl : Int → Int) (body : Nat → Cb → Int → Prog Cb)
    (wake : Nat) (r : Reactor Cb) (answers : List SelectReturn) :
    ((RunRound fcntl body wake r answers).trace
          = selectEvents Cb (SelectFuncIMP answers (init_fd_status r)).calls ∧
        (RunRound fcntl body wake r answers).state = r) ∨
      ∃ (i : Usage) (fd : Int) (cb : Cb),
        (SelectFuncIMP answers (init_fd_status r)).exit = SelectExit.returned ∧
          scan r (SelectFuncIMP answers (init_fd_status r)).sets usages = some (i, fd, cb) ∧
          (RunRound fcntl body wake r answers).trace
            = selectEvents Cb (SelectFuncIMP answers (init_fd_status r)).calls ++
              [Event.callback i fd cb (runCallback fcntl (body wake cb fd) r).log
                (runCallback fcntl (body wake cb fd) r).exit] ∧
          (RunRound fcntl body wake r answers).exit
            = RoundExit.ofCallback (runCallback fcntl (body wake cb fd) r).exit ∧
          (RunRound fcntl body wake r answers).state
            = (runCallback fcntl (body wake cb fd) r).state := by
  cases hsel : (SelectFuncIMP answers (init_fd_status r)).exit with
  | blocked =>
    left
    simp [RunRound, hsel]
  | threw e =>
    left
    simp [RunRound, hsel]
  | returned =>
    cases hscan : scan r (SelectFuncIMP answers (init_fd_status r)).sets usages with
    | none =>
      left
      simp [RunRound, hsel, hscan]
    | some found =>
      right
      obtain ⟨i, fd, cb⟩ := found
      refine ⟨i, fd, cb, rfl, rfl, ?_⟩
      simp [RunRound, hsel, hscan]

theorem emptyMaps_eq_iff (r : Reactor Cb) :
    emptyMaps r = USAGE_COUNT ↔ ∀ u : Usage, r.table u = [] := by
  constructor
  · intro h u
    cases h1 : r.table Usage.EXCEPT with
    | cons a l => simp [emptyMaps, usages, map_size, USAGE_COUNT, h1, List.filter_cons] at h
                  split_ifs at h <;> simp at h
    | nil =>
      cases h2 : r.table Usage.READ with
      | cons a l => simp [emptyMaps, usages, map_size, USAGE_COUNT, h1, h2, List.filter_cons] at h
                    split_ifs at h <;> simp at h
      | nil =>
        cases h3 : r.table Usage.WRITE with
        | cons a l => simp [emptyMaps, usages, map_size, USAGE_COUNT, h1, h2, h3] at h
        | nil => cases u <;> assumption
  · exact emptyMaps_of_empty r

/-- How the loop can return: `EMPTY` with the flag set and the three tables empty, or
`STOP_CALLED` with the flag cleared, and then, if the flag was set on entry,
the last thing it did was to call a callback that called `Stop` and returned. -/
theorem RunLoop_return (fcntl : Int → Int) (body : Nat → Cb → Int → Prog Cb) :
    ∀ (fuel wake : Nat) (r : Reactor Cb) (answers : List SelectReturn) (s : Status),
      (RunLoop fcntl body fuel wake r answers).exit = RunExit.returned s →
        (s = Status.EMPTY ∧
            (RunLoop fcntl body fuel wake r answers).state.m_isRunning = true ∧
            emptyMaps (RunLoop fcntl body fuel wake r answers).state = USAGE_COUNT) ∨
          (s = Status.STOP_CALLED ∧
            (RunLoop fcntl body fuel wake r answers).state.m_isRunning = false ∧
            (r.m_isRunning = true →
              ∃ (pre : List (Event Cb)) (i : Usage) (fd : Int) (cb : Cb) (calls : List (Call Cb)),
                (RunLoop fcntl body fuel wake r answers).trace
                    = pre ++ [Event.callback i fd cb calls CbExit.returned] ∧
                  Call.Stop ∈ calls)) := by
  intro fuel
  induction fuel with
  | zero =>
    intro wake r answers s h
    by_cases hflag : r.m_isRunning = false
    · rw [RunLoop_stopped fcntl body _ wake r answers hflag] at h ⊢
      simp only [RunExit.returned.injEq] at h
      right
      exact ⟨h.symm, hflag, fun ht => absurd ht (by simp [hflag])⟩
    · have hflag1 : r.m_isRunning = true := by simpa using hflag
      by_cases hem : emptyMaps r = USAGE_COUNT
      · rw [RunLoop_empty fcntl body _ wake r answers hflag1 hem] at h ⊢
        simp only [RunExit.returned.injEq] at h
        left
        exact ⟨h.symm, hflag1, hem⟩
      · exfalso
        have he2 : ¬ USAGE_COUNT = emptyMaps r := fun hc => hem hc.symm
        rw [RunLoop.eq_def] at h
        simp [hflag1, he2] at h
  | succ n ih =>
    intro wake r answers s h
    by_cases hflag : r.m_isRunning = false
    · rw [RunLoop_stopped fcntl body _ wake r answers hflag] at h ⊢
      simp only [RunExit.returned.injEq] at h
      right
      exact ⟨h.symm, hflag, fun ht => absurd ht (by simp [hflag])⟩
    · have hflag1 : r.m_isRunning = true := by simpa using hflag
      by_cases hem : emptyMaps r = USAGE_COUNT
      · rw [RunLoop_empty fcntl body _ wake r answers hflag1 hem] at h ⊢
        simp only [RunExit.returned.injEq] at h
        left
        exact ⟨h.symm, hflag1, hem⟩
      · rw [RunLoop_round fcntl body n wake r answers hflag1 hem] at h ⊢
        cases hexit : (RunRound fcntl body wake r answers).exit with
        | threw e => rw [hexit] at h; simp at h
        | aborted => rw [hexit] at h; simp at h
        | blocked => rw [hexit] at h; simp at h
        | next =>
          rw [hexit] at h
          simp only at h ⊢
          rcases ih (wake + 1) _ _ s h with ⟨h1, h2, h3⟩ | ⟨h1, h2, h3⟩
          · exact Or.inl ⟨h1, h2, h3⟩
          · right
            refine ⟨h1, h2, ?_⟩
            intro _
            by_cases hfl : (RunRound fcntl body wake r answers).state.m_isRunning = true
            · obtain ⟨pre, i, fd, cb, calls, htr, hstop⟩ := h3 hfl
              refine ⟨(RunRound fcntl body wake r answers).trace ++ pre, i, fd, cb, calls, ?_,
                hstop⟩
              rw [htr, List.append_assoc]
            · have hfl0 : (RunRound fcntl body wake r answers).state.m_isRunning = false := by
                simpa using hfl
              rcases RunRound_shape fcntl body wake r answers with
                ⟨_, hst⟩ | ⟨i, fd, cb, _, _, htr, hex, hst⟩
              · rw [hst, hflag1] at hfl0
                cases hfl0
              · rw [hexit] at hex
                have hret : (runCallback fcntl (body wake cb fd) r).exit = CbExit.returned := by
                  cases hc : (runCallback fcntl (body wake cb fd) r).exit with
                  | returned => rfl
                  | threw e => rw [hc] at hex; cases hex
                  | aborted => rw [hc] at hex; cases hex
                have hstop : Call.Stop ∈ (runCallback fcntl (body wake cb fd) r).log := by
                  by_contra hno
                  have := runCallback_flag_kept fcntl _ r hno
                  rw [← hst, hfl0, hflag1] at this
                  cases this
                refine ⟨selectEvents Cb (SelectFuncIMP answers (init_fd_status r)).calls,
                  i, fd, cb, _, ?_, hstop⟩
                rw [RunLoop_stopped fcntl body n (wake + 1) _ _ hfl0, htr, hret]
                simp

theorem Run_state_table_of_return (fcntl : Int → Int) (body : Nat → Cb → Int → Prog Cb)
    (fuel : Nat) (r : Reactor Cb) (answers : List SelectReturn) (s : Status)
    (h : (RunLoop fcntl body fuel 0 { r with m_isRunning := true } answers).exit
      = RunExit.returned s) (u : Usage) :
    (Run fcntl body fuel r answers).state.table u
      = (RunLoop fcntl body fuel 0 { r with m_isRunning := true } answers).state.table u := by
  unfold Run
  simp only [h]
  cases u <;> rfl

/-- C16: a return of `Run` is a return of `EMPTY` or of `STOP_CALLED`, never of `ERROR`.
When it is `EMPTY` the three tables are empty at that point and no callback of
this run called `Stop` and returned; when it is `STOP_CALLED` the last thing
`Run` did was to call a callback that called `Stop` and returned.  So with a
descriptor registered and no `Stop` call, `Run` does not return. -/
theorem Run_return_status (fcntl : Int → Int) (body : Nat → Cb → Int → Prog Cb) (fuel : Nat)
    (r : Reactor Cb) (answers : List SelectReturn) (s : Status)
    (h : (Run fcntl body fuel r answers).exit = RunExit.returned s) :
    s ≠ Status.ERROR ∧
      ((s = Status.EMPTY ∧
          (∀ u : Usage, (Run fcntl body fuel r answers).state.table u = []) ∧
          (∀ (i : Usage) (fd : Int) (cb : Cb) (calls : List (Call Cb)),
            Event.callback i fd cb calls CbExit.returned ∈ (Run fcntl body fuel r answers).trace →
              Call.Stop ∉ calls)) ∨
        (s = Status.STOP_CALLED ∧
          ∃ (pre : List (Event Cb)) (i : Usage) (fd : Int) (cb : Cb) (calls : List (Call Cb)),
            (Run fcntl body fuel r answers).trace
                = pre ++ [Event.callback i fd cb calls CbExit.returned] ∧
              Call.Stop ∈ calls)) := by
  rw [Run_exit] at h
  rcases RunLoop_return fcntl body fuel 0 _ answers s h with ⟨h1, _, h3⟩ | ⟨h1, _, h3⟩
  · refine ⟨by rw [h1]; decide, Or.inl ⟨h1, ?_, ?_⟩⟩
    · intro u
      rw [Run_state_table_of_return fcntl body fuel r answers s h u]
      exact (emptyMaps_eq_iff _).mp h3 u
    · intro i fd cb calls hmem hstop
      rw [Run_trace] at hmem
      obtain ⟨pre, suf, htr⟩ := List.append_of_mem hmem
      have := (RunLoop_after_Stop fcntl body i fd cb calls suf hstop fuel 0 _ answers pre htr).1
      rw [h, h1] at this
      cases this
  · refine ⟨by rw [h1]; decide, Or.inr ⟨h1, ?_⟩⟩
    obtain ⟨pre, i, fd, cb, calls, htr, hstop⟩ := h3 rfl
    exact ⟨pre, i, fd, cb, calls, by rw [Run_trace]; exact htr, hstop⟩

/-- Witness of C16: the run of the reactor with one READ registration whose callback
calls `Stop` returns `STOP_CALLED`, and its record ends with a callback that
called `Stop`. -/
theorem Run_return_status_witness :
    (Run allOpen stopBody 1 loneReactor [SelectReturn.ready [3] [] []]).exit
        = RunExit.returned Status.STOP_CALLED ∧
      ∃ (pre : List (Event Nat)) (i : Usage) (fd : Int) (cb : Nat) (calls : List (Call Nat)),
        (Run allOpen stopBody 1 loneReactor [SelectReturn.ready [3] [] []]).trace
            = pre ++ [Event.callback i fd cb calls CbExit.returned] ∧
          Call.Stop ∈ calls :=
  ⟨by decide,
    ((Run_return_status allOpen stopBody 1 loneReactor [SelectReturn.ready [3] [] []]
      Status.STOP_CALLED (by decide)).2.resolve_left (fun h => absurd h.1 (by decide))).2⟩

end ReturnClaims

/-! ## The order of the scan -/

section ScanClaims

variable {Cb : Type}

theorem mem_foldl_FDSetInitIMP (m : map_type Cb) :
    ∀ (s : fd_set) (x : Int), x ∈ m.foldl FDSetInitIMP s ↔ x ∈ s ∨ x ∈ map_keys m := by
  induction m with
  | nil => intro s x; simp [map_keys]
  | cons e rest ih =>
    intro s x
    rw [List.foldl_cons, ih]
    simp only [FDSetInitIMP, FD_SET, map_keys, List.map_cons, List.mem_cons]
    by_cases he : e.1 ∈ s
    · simp only [he, if_true]
      constructor
      · rintro (h | h)
        · exact Or.inl h
        · exact Or.inr (Or.inr h)
      · rintro (h | h | h)
        · exact Or.inl h
        · exact Or.inl (h ▸ he)
        · exact Or.inr h
    · simp only [he, if_false, List.mem_cons]
      tauto

/-- The set built from a table holds exactly the keys of the table. -/
theorem mem_init_fd_set (m : map_type Cb) (x : Int) : x ∈ init_fd_set m ↔ x ∈ map_keys m := by
  unfold init_fd_set
  rw [mem_foldl_FDSetInitIMP]
  simp [FD_ZERO]

/-- A successful `select`: `SelectFuncIMP` returns after one call, each set of the array
reduced to the descriptors reported for its own category. -/
theorem SelectFuncIMP_ready (rd wr ex : fd_set) (rest : List SelectReturn) (sets : FdStatus) :
    SelectFuncIMP (SelectReturn.ready rd wr ex :: rest) sets
      = { exit := SelectExit.returned,
          sets := { at_EXCEPT := (sets.get Usage.EXCEPT).filter (fun fd => decide (fd ∈ ex)),
                    at_READ := (sets.get Usage.READ).filter (fun fd => decide (fd ∈ rd)),
                    at_WRITE := (sets.get Usage.WRITE).filter (fun fd => decide (fd ∈ wr)) },
          rest := rest,
          calls := [(sets.get Usage.READ, sets.get Usage.WRITE, sets.get Usage.EXCEPT)] } := by
  have hne : ∀ n : Nat, ((-1 : Int) == (n : Int)) = false := by
    intro n
    rw [Bool.eq_false_iff]
    simp only [ne_eq, beq_iff_eq]
    omega
  unfold SelectFuncIMP
  simp only [select, hne]
  simp

/-- In a table with ascending keys `find_if` stops at the element of least key among
those that pass the test. -/
theorem find_first_ordered (m : map_type Cb) (p : Int × Cb → Bool) (x : Int × Cb)
    (ho : map_ordered m) (hx : x ∈ m) (hp : p x = true)
    (hmin : ∀ e ∈ m, p e = true → x.1 ≤ e.1) : m.find? p = some x := by
  induction m with
  | nil => cases hx
  | cons a l ih =>
    by_cases hpa : p a = true
    · rw [List.find?_cons_of_pos _ hpa]
      rcases List.mem_cons.mp hx with h | h
      · rw [h]
      · have h1 := hmin a (List.mem_cons_self _ _) hpa
        have h2 := map_ordered_head_lt ho x.1 (List.mem_map_of_mem Prod.fst h)
        omega
    · rw [List.find?_cons_of_neg _ hpa]
      rcases List.mem_cons.mp hx with h | h
      · rw [h] at hp
        exact absurd hp hpa
      · exact ih (map_ordered_tail ho) h (fun e he => hmin e (List.mem_cons_of_mem _ he))

/-- The scan of the three tables against three sets finds the marked registered pair
that comes first by category index and then by descriptor. -/
theorem scan_usages_first (r : Reactor Cb) (sets : FdStatus) (i : Usage) (fd : Int) (cb : Cb)
    (ho : ∀ u : Usage, map_ordered (r.table u)) (hreg : (fd, cb) ∈ r.table i)
    (hbit : FD_ISSET fd (sets.get i) = true)
    (hfirst : ∀ (j : Usage) (e : Int × Cb), e ∈ r.table j →
      FD_ISSET e.1 (sets.get j) = true → i.index < j.index ∨ (j = i ∧ fd ≤ e.1)) :
    scan r sets usages = some (i, fd, cb) := by
  have hfind : (r.table i).find? (FDTest (sets.get i)) = some (fd, cb) := by
    apply find_first_ordered _ _ _ (ho i) hreg hbit
    intro e he hpe
    rcases hfirst i e he hpe with h | h
    · omega
    · exact h.2
  have hnone : ∀ j : Usage, j.index < i.index →
      (r.table j).find? (FDTest (sets.get j)) = none := by
    intro j hj
    rw [List.find?_eq_none]
    intro e he hpe
    have hpe1 : FD_ISSET e.1 (sets.get j) = true := by simpa [FDTest] using hpe
    rcases hfirst j e he hpe1 with h | h
    · omega
    · rw [h.1] at hj
      omega
  cases i with
  | EXCEPT => simp only [usages, scan, hfind]
  | READ =>
    simp only [usages, scan, hnone Usage.EXCEPT (by decide), hfind]
  | WRITE =>
    simp only [usages, scan, hnone Usage.EXCEPT (by decide), hnone Usage.READ (by decide),
      hfind]

/-- C17: in a wake the callback called is fixed by the scan.  `select` having reported
`rd`, `wr`, `ex` (ready for reading, for writing, with an exceptional
condition), a registered pair is ready when its descriptor is in the reported
set of its own category (`ex` for EXCEPT, `rd` for READ, `wr` for WRITE).  The
round calls the callback of the ready pair that comes first by category in the
order EXCEPT, READ, WRITE and, within the category, by ascending descriptor; the
callback is run on that descriptor, and no other callback is called. -/
theorem RunRound_scan_order (fcntl : Int → Int) (body : Nat → Cb → Int → Prog Cb)
    (wake : Nat) (r : Reactor Cb) (rd wr ex : fd_set) (rest : List SelectReturn)
    (i : Usage) (fd : Int) (cb : Cb)
    (ho : ∀ u : Usage, map_ordered (r.table u)) (hreg : (fd, cb) ∈ r.table i)
    (hready : fd ∈ ({ at_EXCEPT := ex, at_READ := rd, at_WRITE := wr } : FdStatus).get i)
    (hfirst : ∀ (j : Usage) (e : Int × Cb), e ∈ r.table j →
      e.1 ∈ ({ at_EXCEPT := ex, at_READ := rd, at_WRITE := wr } : FdStatus).get j →
        i.index < j.index ∨ (j = i ∧ fd ≤ e.1)) :
    RunRound fcntl body wake r (SelectReturn.ready rd wr ex :: rest)
      = { exit := RoundExit.ofCallback (runCallback fcntl (body wake cb fd) r).exit,
          state := (runCallback fcntl (body wake cb fd) r).state,
          rest := rest,
          trace := [Event.select (init_fd_set (r.table Usage.READ))
                      (init_fd_set (r.table Usage.WRITE)) (init_fd_set (r.table Usage.EXCEPT)),
                    Event.callback i fd cb (runCallback fcntl (body wake cb fd) r).log
                      (runCallback fcntl (body wake cb fd) r).exit] } := by
  have hbit : ∀ (j : Usage) (e : Int × Cb), e ∈ r.table j →
      (FD_ISSET e.1 ((SelectFuncIMP (SelectReturn.ready rd wr ex :: rest)
          (init_fd_status r)).sets.get j) = true
        ↔ e.1 ∈ ({ at_EXCEPT := ex, at_READ := rd, at_WRITE := wr } : FdStatus).get j) := by
    intro j e he
    have hkey : e.1 ∈ map_keys (r.table j) := List.mem_map_of_mem Prod.fst he
    rw [SelectFuncIMP_ready]
    cases j <;>
      simp [FdStatus.get, FD_ISSET, init_fd_status, List.mem_filter, mem_init_fd_set, hkey]
  have hscan := scan_usages_first r
    (SelectFuncIMP (SelectReturn.ready rd wr ex :: rest) (init_fd_status r)).sets i fd cb ho hreg
    ((hbit i (fd, cb) hreg).mpr hready)
    (fun j e he hb => hfirst j e he ((hbit j e he).mp hb))
  have hexit : (SelectFuncIMP (SelectReturn.ready rd wr ex :: rest) (init_fd_status r)).exit
      = SelectExit.returned := by rw [SelectFuncIMP_ready]
  simp only [RunRound, hexit, hscan]
  rw [SelectFuncIMP_ready]
  rfl

/-- Witness of C17: on the sample reactor, with descriptors 3 and 5 reported ready
for reading and 3 with an exceptional condition, the round calls callback 7 of
the EXCEPT table on descriptor 3. -/
theorem RunRound_scan_order_witness :
    (RunRound allOpen stopBody 0 sampleReactor [SelectReturn.ready [3, 5] [] [3]]).trace
      = [Event.select [5, 3, 1] [] [3], Event.callback Usage.EXCEPT 3 7 [] CbExit.returned] := by
  have h := RunRound_scan_order allOpen stopBody 0 sampleReactor [3, 5] [] [3] []
    Usage.EXCEPT 3 7 (by intro u; cases u <;> decide) (by decide) (by decide)
    (by
      intro j e he hr
      cases j with
      | EXCEPT =>
        right
        refine ⟨rfl, ?_⟩
        simp only [FdStatus.get, List.mem_singleton] at hr
        omega
      | READ => left; decide
      | WRITE => left; decide)
  rw [h]
  decide

end ScanClaims

/-! ## Invariant of the reachable states -/

section InvariantClaims

variable {Cb : Type}

theorem table_inv_nil : table_inv ([] : map_type Cb) := by
  simp [table_inv, map_ordered, map_keys, map_size]

theorem Add_table_inv (fcntl : Int → Int) (r : Reactor Cb) (fd : Int) (u : Usage) (cb : Cb)
    (h : ∀ w : Usage, table_inv (r.table w)) :
    ∀ w : Usage, table_inv ((Add fcntl r fd u cb).1.table w) := by
  by_cases hi : fd < 0 ∨ 1024 ≤ fd ∨ fcntl fd = -1
  · rw [Add_invalid fcntl r fd u cb hi]
    exact h
  · by_cases hf : map_size (r.table u) = 1024
    · rw [Add_full fcntl r fd u cb hi hf]
      exact h
    · rw [Add_insert fcntl r fd u cb hi hf]
      intro w
      by_cases hw : w = u
      · subst hw
        show table_inv ((r.setTable w (map_insert fd cb (r.table w)).1).table w)
        rw [table_setTable_same]
        obtain ⟨h1, h2, h3⟩ := h w
        cases hb : (map_insert fd cb (r.table w)).2
        · rw [map_insert_false_eq fd cb _ hb]
          exact ⟨h1, h2, h3⟩
        · refine ⟨map_ordered_insert fd cb _ h1, ?_, ?_⟩
          · intro k hk
            rcases (map_keys_insert fd cb _ hb k).mp hk with hk1 | hk1
            · rw [hk1]
              omega
            · exact h2 k hk1
          · have := map_insert_length fd cb _ hb
            unfold map_size at *
            omega
      · show table_inv ((r.setTable u (map_insert fd cb (r.table u)).1).table w)
        rw [table_setTable_other r u w _ hw]
        exact h w

theorem Remove_table_inv (r : Reactor Cb) (fd : Int) (u : Usage)
    (h : ∀ w : Usage, table_inv (r.table w)) :
    ∀ w : Usage, table_inv ((Remove r fd u).1.table w) := by
  by_cases hk : fd ∈ map_keys (r.table u)
  · rw [Remove_present r fd u hk]
    intro w
    by_cases hw : w = u
    · subst hw
      show table_inv ((r.setTable w (map_erase fd (r.table w))).table w)
      rw [table_setTable_same]
      obtain ⟨h1, h2, h3⟩ := h w
      refine ⟨map_ordered_erase fd _ h1, fun k hk1 => h2 k (map_erase_subset fd _ k hk1), ?_⟩
      have := map_erase_length fd _ hk
      unfold map_size at *
      omega
    · show table_inv ((r.setTable u (map_erase fd (r.table u))).table w)
      rw [table_setTable_other r u w _ hw]
      exact h w
  · rw [Remove_absent r fd u hk]
    exact h

theorem applyCalls_table_inv (calls : List (UserCall Cb)) :
    ∀ r : Reactor Cb, (∀ w : Usage, table_inv (r.table w)) →
      ∀ w : Usage, table_inv ((applyCalls r calls).table w) := by
  induction calls with
  | nil => intro r h; exact h
  | cons c cs ih =>
    intro r h
    show ∀ w : Usage, table_inv ((applyCalls (applyCall r c) cs).table w)
    apply ih
    cases c with
    | Add fcntl fd u cb => exact Add_table_inv fcntl r fd u cb h
    | Remove fd u => exact Remove_table_inv r fd u h

/-- C19: in every state reached from a freshly constructed reactor by calls of `Add`
and `Remove`, throwing or not, each table has at most 1024 entries, holds each
descriptor at most once (its keys are strictly ascending), and holds only
descriptors of `[0, 1024)`; so every `FD_SET` of `FDSetInitIMP` is given a
descriptor of that range and the sets built hold only such descriptors. -/
theorem reachable_invariant (calls : List (UserCall Cb)) (u : Usage) :
    map_size ((applyCalls (Reactor.new Cb) calls).table u) ≤ 1024 ∧
      (map_keys ((applyCalls (Reactor.new Cb) calls).table u)).Nodup ∧
      map_ordered ((applyCalls (Reactor.new Cb) calls).table u) ∧
      (∀ file_des ∈ (applyCalls (Reactor.new Cb) calls).table u,
        0 ≤ file_des.1 ∧ file_des.1 < 1024) ∧
      (∀ fd ∈ init_fd_set ((applyCalls (Reactor.new Cb) calls).table u), 0 ≤ fd ∧ fd < 1024) ∧
      (applyCalls (Reactor.new Cb) calls).m_isRunning = false := by
  have hnew : ∀ w : Usage, table_inv ((Reactor.new Cb).table w) := by
    intro w
    cases w <;> exact table_inv_nil
  obtain ⟨h1, h2, h3⟩ := applyCalls_table_inv calls (Reactor.new Cb) hnew u
  refine ⟨h3, ?_, h1, ?_, ?_, ?_⟩
  · unfold map_ordered at h1
    exact h1.imp (fun hab => ne_of_lt hab)
  · intro e he
    exact h2 e.1 (List.mem_map_of_mem Prod.fst he)
  · intro fd hfd
    exact h2 fd ((mem_init_fd_set _ fd).mp hfd)
  · have hflag : ∀ (cs : List (UserCall Cb)) (r : Reactor Cb),
        (applyCalls r cs).m_isRunning = r.m_isRunning := by
      intro cs
      induction cs with
      | nil => intro r; rfl
      | cons c cs ih =>
        intro r
        show (applyCalls (applyCall r c) cs).m_isRunning = r.m_isRunning
        rw [ih]
        cases c with
        | Add fcntl fd u cb => exact Add_isRunning fcntl r fd u cb
        | Remove fd u => exact Remove_isRunning r fd u
    rw [hflag]
    rfl

end InvariantClaims

/-! ## The families of the exceptions -/

section FamilyClaims

variable {Cb : Type}

theorem Add_throws (fcntl : Int → Int) (r : Reactor Cb) (fd : Int) (u : Usage) (cb : Cb)
    (e : Exn) (h : (Add fcntl r fd u cb).2 = some e) :
    e = Exn.ExceptionNonValidFD ∨ e = Exn.ExceptionFDsOverflow ∨ e = Exn.ExceptionRepeatingFD := by
  by_cases hi : fd < 0 ∨ 1024 ≤ fd ∨ fcntl fd = -1
  · rw [Add_invalid fcntl r fd u cb hi] at h
    simp only [Option.some.injEq] at h
    exact Or.inl h.symm
  · by_cases hf : map_size (r.table u) = 1024
    · rw [Add_full fcntl r fd u cb hi hf] at h
      simp only [Option.some.injEq] at h
      exact Or.inr (Or.inl h.symm)
    · rw [Add_insert fcntl r fd u cb hi hf] at h
      by_cases hb : (map_insert fd cb (r.table u)).2 = false
      · simp only [hb, if_true, Option.some.injEq] at h
        exact Or.inr (Or.inr h.symm)
      · simp [hb] at h

theorem Remove_throws (r : Reactor Cb) (fd : Int) (u : Usage) (e : Exn)
    (h : (Remove r fd u).2 = some e) : e = Exn.ExceptionRemovingNonExistingFD := by
  by_cases hk : fd ∈ map_keys (r.table u)
  · rw [Remove_present r fd u hk] at h
    cases h
  · rw [Remove_absent r fd u hk] at h
    simp only [Option.some.injEq] at h
    exact h.symm

theorem SelectFuncIMP_throws (answers : List SelectReturn) :
    ∀ (sets : FdStatus) (e : Exn), (SelectFuncIMP answers sets).exit = SelectExit.threw e →
      e = Exn.std_runtime_error ∨ e = Exn.std_logic_error := by
  induction answers with
  | nil => intro sets e h; simp [SelectFuncIMP] at h
  | cons a rest ih =>
    intro sets e h
    cases a with
    | ready rd wr ex =>
      rw [SelectFuncIMP_ready] at h
      cases h
    | error errno =>
      cases errno with
      | EINTR =>
        rw [SelectFuncIMP_EINTR] at h
        exact ih sets e h
      | EAGAIN =>
        simp only [SelectFuncIMP, select, beq_self_eq_true, if_true,
          SelectExit.threw.injEq] at h
        exact Or.inl h.symm
      | EBADF =>
        simp only [SelectFuncIMP, select, beq_self_eq_true, if_true,
          SelectExit.threw.injEq] at h
        exact Or.inr h.symm
      | EINVAL =>
        rw [SelectFuncIMP_unhandled _ _ _ (by decide) (by decide) (by decide)] at h
        cases h
      | ENOMEM =>
        rw [SelectFuncIMP_unhandled _ _ _ (by decide) (by decide) (by decide)] at h
        cases h

theorem fullReactor_size : map_size (fullReactor.table Usage.READ) = 1024 := by
  have htab : fullReactor.table Usage.READ = rangeTable 1024 := by
    simp only [fullReactor, Reactor.table]
  rw [htab]
  exact rangeTable_length 1024

/-- C20 (counterexample): `Add` to a full table throws `ExceptionFDsOverflow`, which
derives from `ExceptionReactorRuntime` and so from `std::runtime_error`, not
from the logic-error base; and on `EBADF` `SelectFuncIMP` throws a
`std::logic_error`, not a runtime error. -/
theorem Overflow_is_runtime_EBADF_is_logic :
    (Add allOpen fullReactor 7 Usage.READ 0).2 = some Exn.ExceptionFDsOverflow ∧
      Exn.ExceptionFDsOverflow.reactorBase ≠ some ReactorBase.ExceptionReactorLogic ∧
      Exn.ExceptionFDsOverflow.stdBase = StdBase.runtime_error ∧
      (SelectFuncIMP [SelectReturn.error Errno.EBADF] (init_fd_status loneReactor)).exit
        = SelectExit.threw Exn.std_logic_error ∧
      Exn.std_logic_error.stdBase = StdBase.logic_error ∧
      Exn.std_logic_error.stdBase ≠ StdBase.runtime_error := by
  refine ⟨?_, by decide, by decide, by decide, by decide, by decide⟩
  rw [Add_full allOpen fullReactor 7 Usage.READ 0 (by simp [allOpen]) fullReactor_size]

/-- C20 (amended): the exceptions of `Add` and `Remove` for an invalid descriptor, a
repeated registration and an unknown registration derive from
`ExceptionReactorLogic`, a `std::logic_error`; the one for a full table derives
from `ExceptionReactorRuntime`, a `std::runtime_error`.  Of the two exceptions
that `SelectFuncIMP` throws and `Run` lets through, the one for `EAGAIN` is a
`std::runtime_error` and the one for `EBADF` is a `std::logic_error`.  Each
exception has one standard base, so the two families are disjoint. -/
theorem error_families (fcntl : Int → Int) (body : Nat → Cb → Int → Prog Cb) (wake : Nat)
    (r : Reactor Cb) (fd : Int) (u : Usage) (cb : Cb)
    (answers : List SelectReturn) (sets : FdStatus) :
    (∀ e : Exn, (Add fcntl r fd u cb).2 = some e →
        (e = Exn.ExceptionFDsOverflow ∧
            e.reactorBase = some ReactorBase.ExceptionReactorRuntime ∧
            e.stdBase = StdBase.runtime_error) ∨
          ((e = Exn.ExceptionNonValidFD ∨ e = Exn.ExceptionRepeatingFD) ∧
            e.reactorBase = some ReactorBase.ExceptionReactorLogic ∧
            e.stdBase = StdBase.logic_error)) ∧
      (∀ e : Exn, (Remove r fd u).2 = some e →
        e = Exn.ExceptionRemovingNonExistingFD ∧
          e.reactorBase = some ReactorBase.ExceptionReactorLogic ∧
          e.stdBase = StdBase.logic_error) ∧
      (∀ e : Exn, (SelectFuncIMP answers sets).exit = SelectExit.threw e →
        (e = Exn.std_runtime_error ∧ e.stdBase = StdBase.runtime_error) ∨
          (e = Exn.std_logic_error ∧ e.stdBase = StdBase.logic_error)) ∧
      (SelectFuncIMP (SelectReturn.error Errno.EAGAIN :: answers) sets).exit
        = SelectExit.threw Exn.std_runtime_error ∧
      (SelectFuncIMP (SelectReturn.error Errno.EBADF :: answers) sets).exit
        = SelectExit.threw Exn.std_logic_error ∧
      (∀ e : Exn, (SelectFuncIMP answers (init_fd_status r)).exit = SelectExit.threw e →
        (RunRound fcntl body wake r answers).exit = RoundExit.threw e ∧
          (RunRound fcntl body wake r answers).state = r) ∧
      (∀ e : Exn, ¬ (e.stdBase = StdBase.logic_error ∧ e.stdBase = StdBase.runtime_error)) := by
  refine ⟨?_, ?_, ?_, ?_, ?_, ?_, ?_⟩
  · intro e h
    rcases Add_throws fcntl r fd u cb e h with h1 | h1 | h1
    · exact Or.inr ⟨Or.inl h1, by rw [h1]; rfl, by rw [h1]; rfl⟩
    · exact Or.inl ⟨h1, by rw [h1]; rfl, by rw [h1]; rfl⟩
    · exact Or.inr ⟨Or.inr h1, by rw [h1]; rfl, by rw [h1]; rfl⟩
  · intro e h
    have h1 := Remove_throws r fd u e h
    exact ⟨h1, by rw [h1]; rfl, by rw [h1]; rfl⟩
  · intro e h
    rcases SelectFuncIMP_throws answers sets e h with h1 | h1
    · exact Or.inl ⟨h1, by rw [h1]; rfl⟩
    · exact Or.inr ⟨h1, by rw [h1]; rfl⟩
  · simp [SelectFuncIMP, select]
  · simp [SelectFuncIMP, select]
  · intro e h
    simp [RunRound, h]
  · intro e h
    rw [h.1] at h
    cases h.2

end FamilyClaims

/-! ## A callback that removes its own registration -/

section SelfRemoveLemmas

variable {Cb : Type}

end SelfRemoveLemmas

section SelfRemoveClaims

variable {Cb : Type}

end SelfRemoveClaims

end ilrd
